import Mathlib

/-!
Verification development for the claude-glm-wrapper local gateway.

The definitions below are a shallow embedding of the TypeScript sources:
  - src/adapters/types.ts            (data model)
  - src/adapters/map.ts              (router, Gemini converters, schema sanitizer)
  - src/adapters/providers/openrouter.ts  (Chat Completions converters, SSE emitter)
  - src/adapters/anthropic-gateway.ts     (POST /v1/messages dispatch)
  - src/adapters/google-auth.ts      (Google OAuth token refresh)
  - src/unnamed/part_001             (vision cache, Codex OAuth token refresh)

Pure functions become Lean functions; the streaming emitters become explicit
state machines over lists of upstream events; effectful results (thrown
errors, HTTP responses) become Except / explicit outcome values.
-/

namespace ClaudeProxy

/-! ## Basic data model (src/adapters/types.ts) -/

inductive ReasoningLevel where
  | low
  | medium
  | high
  | xhigh
deriving DecidableEq, Repr

inductive ProviderKey where
  | openai
  | openrouter
  | gemini
  | geminiOauth
  | codexOauth
  | glm
  | anthropic
deriving DecidableEq, Repr

structure ProviderModel where
  provider : ProviderKey
  model : String
  reasoning : Option ReasoningLevel := none
deriving DecidableEq, Repr

/-! ## String helpers used by the router embedding -/

/-- Lowercase every character (JS String.prototype.toLowerCase on ASCII model names). -/
def lowerStr (s : String) : String :=
  String.mk (s.data.map Char.toLower)

/-- Split a character list at the LAST occurrence of c, returning (before, after).
    Mirrors JS lastIndexOf plus the two slices. -/
def splitAtLast (c : Char) : List Char → Option (List Char × List Char)
  | [] => none
  | a :: rest =>
    match splitAtLast c rest with
    | some (pre, suf) => some (a :: pre, suf)
    | none => if a = c then some ([], rest) else none

/-- Split a character list at the FIRST occurrence of c, returning (before, after).
    Mirrors JS split(sep) destructured as [head, ...rest] with rest.join(sep). -/
def splitAtFirst (c : Char) : List Char → Option (List Char × List Char)
  | [] => none
  | a :: rest =>
    if a = c then some ([], rest)
    else
      match splitAtFirst c rest with
      | some (pre, suf) => some (a :: pre, suf)
      | none => none

/-- Structural prefix test (JS String.prototype.startsWith), kept kernel-reducible. -/
def strStartsWith (s pre : String) : Bool :=
  pre.data.isPrefixOf s.data

/-- VALID_REASONING membership test on an already-lowercased suffix (src/adapters/map.ts line 10). -/
def reasoningOfString (s : String) : Option ReasoningLevel :=
  if s = "low" then some .low
  else if s = "medium" then some .medium
  else if s = "high" then some .high
  else if s = "xhigh" then some .xhigh
  else none

/-- The canonical spelling of a reasoning level, as written in an @level suffix. -/
def reasoningString : ReasoningLevel → String
  | .low => "low"
  | .medium => "medium"
  | .high => "high"
  | .xhigh => "xhigh"

/-- PROVIDER_PREFIXES lookup (src/adapters/map.ts lines 12-20). -/
def providerOfString (s : String) : Option ProviderKey :=
  if s = "openai" then some .openai
  else if s = "openrouter" then some .openrouter
  else if s = "gemini" then some .gemini
  else if s = "gemini-oauth" then some .geminiOauth
  else if s = "codex-oauth" then some .codexOauth
  else if s = "glm" then some .glm
  else if s = "anthropic" then some .anthropic
  else none

/-- MODEL_SHORTCUTS alias table (src/adapters/map.ts lines 23-60, the newer table). -/
def modelShortcuts : List (String × String) :=
  [("g", "glm:glm-5"),
   ("glm", "glm:glm-5"),
   ("glm47", "glm:glm-4.7"),
   ("glm45", "glm:glm-4.5"),
   ("glm5", "glm:glm-5"),
   ("glm5or", "openrouter:z-ai/glm-5"),
   ("flash", "glm:glm-4-flash"),
   ("minimax", "openrouter:minimax/minimax-m2.5"),
   ("mm", "openrouter:minimax/minimax-m2.5"),
   ("m25", "openrouter:minimax/minimax-m2.5"),
   ("opus", "anthropic:claude-opus-4-5-20251101"),
   ("sonnet", "anthropic:claude-sonnet-4-5-20250929"),
   ("haiku", "anthropic:claude-haiku-4-5-20251001"),
   ("gemini", "gemini-oauth:gemini-3-pro-preview"),
   ("gemini-pro", "gemini-oauth:gemini-3-pro-preview"),
   ("gemini-flash", "gemini-oauth:gemini-3-flash-preview"),
   ("gemini-31p", "gemini-oauth:gemini-3.1-pro-preview"),
   ("gemini-31f", "gemini-oauth:gemini-3.1-flash-preview"),
   ("gemini-25p", "gemini-oauth:gemini-2.5-pro"),
   ("gemini-25f", "gemini-oauth:gemini-2.5-flash"),
   ("gp", "gemini-oauth:gemini-3-pro-preview"),
   ("gf", "gemini-oauth:gemini-3-flash-preview"),
   ("codex", "codex-oauth:gpt-5.3-codex"),
   ("codex-5.3", "codex-oauth:gpt-5.3-codex"),
   ("codex-5.2", "codex-oauth:gpt-5.2-codex"),
   ("codex-max", "codex-oauth:gpt-5.1-codex-max"),
   ("codex-mini", "codex-oauth:gpt-5.1-codex-mini"),
   ("gpt52", "codex-oauth:gpt-5.2"),
   ("cx", "codex-oauth:gpt-5.3-codex"),
   ("cx53", "codex-oauth:gpt-5.3-codex"),
   ("cx52", "codex-oauth:gpt-5.2-codex")]

def lookupShortcut (key : String) : Option String :=
  (modelShortcuts.find? (fun p => p.1 == key)).map (fun p => p.2)

/-- The terminal-suffix handling of parseProviderModel (src/adapters/map.ts lines 76-86):
    if the last @ sits at a positive index and the lowercased suffix is a valid
    reasoning level, strip it; otherwise leave the field untouched. -/
def stripReasoning (modelField : String) : Option ReasoningLevel × String :=
  match splitAtLast '@' modelField.data with
  | some (pre, suf) =>
    if pre ≠ [] then
      match reasoningOfString (lowerStr (String.mk suf)) with
      | some lvl => (some lvl, String.mk pre)
      | none => (none, modelField)
    else (none, modelField)
  | none => (none, modelField)

/-- Body of parseProviderModel after the @level strip (src/adapters/map.ts lines 88-119). -/
def parseAfterStrip (rawField : String) (reasoning : Option ReasoningLevel)
    (defaults : Option ProviderModel) : ProviderModel :=
  let expanded :=
    match lookupShortcut (lowerStr rawField) with
    | some target => target
    | none => rawField
  if strStartsWith (lowerStr expanded) "claude-" then
    { provider := .anthropic, model := expanded, reasoning := reasoning }
  else if strStartsWith (lowerStr expanded) "glm-" then
    { provider := .glm, model := expanded, reasoning := reasoning }
  else
    let sep : Option Char :=
      if expanded.data.contains ':' then some ':'
      else if expanded.data.contains '/' then some '/'
      else none
    match sep with
    | none =>
      let base := defaults.getD { provider := .glm, model := expanded }
      { base with reasoning := reasoning.orElse (fun _ => base.reasoning) }
    | some c =>
      match splitAtFirst c expanded.data with
      | some (pre, suf) =>
        match providerOfString (lowerStr (String.mk pre)) with
        | some prov => { provider := prov, model := String.mk suf, reasoning := reasoning }
        | none =>
          let base := defaults.getD { provider := .glm, model := expanded }
          { base with reasoning := reasoning.orElse (fun _ => base.reasoning) }
      | none =>
        let base := defaults.getD { provider := .glm, model := expanded }
        { base with reasoning := reasoning.orElse (fun _ => base.reasoning) }

/-- parseProviderModel (src/adapters/map.ts lines 67-120). An empty model field
    returns the defaults when present and otherwise throws. -/
def parseProviderModel (modelField : String) (defaults : Option ProviderModel) :
    Except String ProviderModel :=
  if modelField = "" then
    match defaults with
    | some d => .ok d
    | none => .error "Missing model in request"
  else
    let sr := stripReasoning modelField
    .ok (parseAfterStrip sr.2 sr.1 defaults)

/-! ## JSON values

Free-form JSON, used for tool input schemas, tool-call arguments and
tool-result payloads. JSON numbers are modelled as integers (no claim
depends on numeric values). -/

inductive Json where
  | null
  | bool (b : Bool)
  | num (n : Int)
  | str (s : String)
  | arr (items : List Json)
  | obj (fields : List (String × Json))

/-! ## Gemini schema sanitizer (src/adapters/map.ts lines 287-309) -/

/-- GEMINI_ALLOWED whitelist of schema keywords. -/
def geminiAllowed : List String :=
  ["type", "properties", "required", "description",
   "enum", "items", "format", "nullable", "title",
   "anyOf", "$ref", "$defs", "$id", "$anchor",
   "minimum", "maximum", "minItems", "maxItems",
   "prefixItems", "additionalProperties", "propertyOrdering"]

mutual

/-- sanitizeSchema: recursively strip JSON Schema fields Gemini does not support.
    isPropertyMap is true when inside the value of a "properties" key, where
    keys are user-defined property names and are not whitelisted. -/
def sanitizeSchema : Json → Bool → Json
  | .obj fields, isPropertyMap => .obj (sanitizeFields fields isPropertyMap)
  | .arr items, _ => .arr (sanitizeItems items)
  | j, _ => j

/-- The Object.entries loop of sanitizeSchema: drop a non-whitelisted key
    unless inside a properties map, recurse into values. -/
def sanitizeFields : List (String × Json) → Bool → List (String × Json)
  | [], _ => []
  | (k, v) :: rest, isPropertyMap =>
    if ¬ isPropertyMap ∧ ¬ geminiAllowed.contains k then sanitizeFields rest isPropertyMap
    else (k, sanitizeSchema v (k == "properties")) :: sanitizeFields rest isPropertyMap

/-- The Array.map branch of sanitizeSchema (array elements are sanitized with
    isPropertyMap = false). -/
def sanitizeItems : List Json → List Json
  | [] => []
  | j :: rest => sanitizeSchema j false :: sanitizeItems rest

end

mutual

/-- Specification predicate for C4: every recursively reachable key is
    whitelisted, except keys that are immediate children of a properties map;
    values under a "properties" key are checked as property maps. -/
def keysOk : Json → Bool → Bool
  | .obj fields, isPropertyMap => keysOkFields fields isPropertyMap
  | .arr items, _ => keysOkItems items
  | _, _ => true

def keysOkFields : List (String × Json) → Bool → Bool
  | [], _ => true
  | (k, v) :: rest, isPropertyMap =>
    (isPropertyMap || geminiAllowed.contains k)
      && keysOk v (k == "properties") && keysOkFields rest isPropertyMap

def keysOkItems : List Json → Bool
  | [] => true
  | j :: rest => keysOk j false && keysOkItems rest

end

/-! ## Content blocks and messages (src/adapters/types.ts) -/

inductive Role where
  | user
  | assistant
deriving DecidableEq, Repr

/-- An image source: inline base64 (type "base64") or URL-sourced (type "url"),
    as handled by vision-preprocess. -/
structure ImageSourceV where
  srcType : String
  mediaType : String
  data : String
  url : Option String := none
deriving DecidableEq, Repr

inductive ContentBlock where
  | text (t : String)
  | image (source : ImageSourceV)
  | toolUse (id : String) (name : String) (input : Json)
  | toolResult (toolUseId : String) (content : Json)

inductive MessageContent where
  | str (s : String)
  | blocks (bs : List ContentBlock)

structure Message where
  role : Role
  content : MessageContent

/-- The content blocks of a message (empty for plain-string content). -/
def blocksOfContent : MessageContent → List ContentBlock
  | .str _ => []
  | .blocks bs => bs

/-! ## OpenAI Responses API converter
(src/adapters/providers/openrouter.ts concatenation, codex-oauth part,
toResponsesInput lines 386-463) -/

inductive RPart where
  | inputText (t : String)
  | outputText (t : String)
  | inputImage (url : String)
deriving DecidableEq, Repr

inductive RItem where
  | message (role : Role) (content : List RPart)
  | functionCall (callId : String) (name : String) (argsJson : Json)
  | functionCallOutput (callId : String) (output : Json)

/-- Text parts become output_text for assistant turns and input_text otherwise. -/
def rTextPart (role : Role) (t : String) : RPart :=
  match role with
  | .assistant => .outputText t
  | .user => .inputText t

def rPartOfBlock (role : Role) : ContentBlock → Option RPart
  | .text t => some (rTextPart role t)
  | .image src => some (.inputImage ("data:" ++ src.mediaType ++ ";base64," ++ src.data))
  | _ => none

def rCallOfBlock : ContentBlock → Option RItem
  | .toolUse id name input => some (.functionCall id name input)
  | _ => none

def rOutputOfBlock : ContentBlock → Option RItem
  | .toolResult tid content => some (.functionCallOutput tid content)
  | _ => none

/-- One message's contribution to the Responses input: an optional message item
    with the content parts, then the function_call items, then the
    function_call_output items, in block order within each group. -/
def responsesItemsOfMessage (m : Message) : List RItem :=
  match m.content with
  | .str s => [.message m.role [rTextPart m.role s]]
  | .blocks bs =>
    let contentParts := bs.filterMap (rPartOfBlock m.role)
    let functionCalls := bs.filterMap rCallOfBlock
    let functionOutputs := bs.filterMap rOutputOfBlock
    (if contentParts.isEmpty then [] else [RItem.message m.role contentParts])
      ++ functionCalls ++ functionOutputs

/-- toResponsesInput: the items array is the per-message item lists concatenated
    in message order. -/
def toResponsesInput (messages : List Message) : List RItem :=
  messages.flatMap responsesItemsOfMessage

/-! ## OpenAI Chat Completions converter
(src/adapters/providers/openrouter.ts, toOpenAIMessagesWithTools lines 25-81) -/

structure OAIToolCall where
  id : String
  name : String
  argsJson : Json

inductive OAIMsg where
  | chat (role : Role) (content : String)
  | assistantWithTools (content : Option String) (toolCalls : List OAIToolCall)
  | toolReply (toolCallId : String) (content : Json)

def textOfBlock : ContentBlock → Option String
  | .text t => some t
  | _ => none

def oaiToolCallOfBlock : ContentBlock → Option OAIToolCall
  | .toolUse id name input => some ⟨id, name, input⟩
  | _ => none

def oaiToolReplyOfBlock : ContentBlock → Option OAIMsg
  | .toolResult tid c => some (.toolReply tid c)
  | _ => none

/-- One message's contribution to the Chat Completions messages array:
    an assistant message bearing tool_calls when present, else a plain message
    when there is text, followed by one tool-role message per tool_result. -/
def openAIMsgsOfMessage (m : Message) : List OAIMsg :=
  match m.content with
  | .str s => [.chat m.role s]
  | .blocks bs =>
    let textParts := bs.filterMap textOfBlock
    let toolCalls := bs.filterMap oaiToolCallOfBlock
    let toolResults := bs.filterMap oaiToolReplyOfBlock
    let joined := String.join textParts
    (if m.role = .assistant ∧ toolCalls.isEmpty = false then
       [OAIMsg.assistantWithTools (if joined = "" then none else some joined) toolCalls]
     else if textParts ≠ [] then [OAIMsg.chat m.role joined]
     else [])
      ++ toolResults

def toOpenAIMessagesWithTools (messages : List Message) : List OAIMsg :=
  messages.flatMap openAIMsgsOfMessage

/-! ## Gemini converter (src/adapters/map.ts concatenation, gemini-oauth part,
findToolName lines 204-214, toGeminiParts lines 217-263, toGeminiContents
lines 266-284) -/

inductive GPart where
  | text (t : String)
  | inlineData (mimeType : String) (data : String)
  | functionCall (name : String) (args : Json)
  | functionResponse (name : String) (response : Json)

def findToolNameInBlocks (tid : String) : List ContentBlock → Option String
  | [] => none
  | .toolUse id name _ :: rest =>
    if id = tid then some name else findToolNameInBlocks tid rest
  | .text _ :: rest => findToolNameInBlocks tid rest
  | .image _ :: rest => findToolNameInBlocks tid rest
  | .toolResult _ _ :: rest => findToolNameInBlocks tid rest

def findToolNameAux (tid : String) : List Message → Option String
  | [] => none
  | m :: rest =>
    match m.content with
    | .str _ => findToolNameAux tid rest
    | .blocks bs =>
      match findToolNameInBlocks tid bs with
      | some n => some n
      | none => findToolNameAux tid rest

/-- findToolName: scan the whole message history for the first tool_use with
    the given id; fall back to "unknown_tool". -/
def findToolName (messages : List Message) (tid : String) : String :=
  (findToolNameAux tid messages).getD "unknown_tool"

/-- One content block's Gemini parts (the loop body of toGeminiParts). The
    thoughtSignature constant attached to functionCall parts is omitted: it is
    a fixed string carried verbatim. -/
def gPartOfBlock (allMessages : List Message) : ContentBlock → Option GPart
  | .text t => if t ≠ "" then some (.text t) else none
  | .image src => some (.inlineData src.mediaType src.data)
  | .toolUse _ name input => some (.functionCall name input)
  | .toolResult tid c => some (.functionResponse (findToolName allMessages tid) c)

/-- toGeminiParts: empty outputs are replaced by a single blank text part. -/
def toGeminiParts (content : MessageContent) (allMessages : List Message) : List GPart :=
  match content with
  | .str s => if s ≠ "" then [.text s] else [.text " "]
  | .blocks bs =>
    let parts := bs.filterMap (gPartOfBlock allMessages)
    if parts.isEmpty then [.text " "] else parts

structure GContent where
  role : String
  parts : List GPart

def geminiRole (r : Role) : String :=
  match r with
  | .assistant => "model"
  | .user => "user"

/-- The loop body of toGeminiContents: merge into the previous entry when the
    role repeats, else push a new entry. -/
def pushMergedContent (merged : List GContent) (role : String) (parts : List GPart) :
    List GContent :=
  match merged.getLast? with
  | some lastC =>
    if lastC.role = role then merged.dropLast ++ [⟨lastC.role, lastC.parts ++ parts⟩]
    else merged ++ [⟨role, parts⟩]
  | none => [⟨role, parts⟩]

/-- toGeminiContents: consecutive same-role messages are merged. -/
def toGeminiContents (messages : List Message) : List GContent :=
  messages.foldl
    (fun merged m => pushMergedContent merged (geminiRole m.role) (toGeminiParts m.content messages))
    []

/-! ## Vision preprocessing cache (src/unnamed/part_001, lines 10-18 and 81-130) -/

/-- Stand-in for the SHA-256 digest over the bounded key material. Only
    injectivity on its argument matters for the cache claims, so the digest is
    modelled as a tagged copy of the hashed string
    (createHash sha256 over data.slice(0,2048) + ":" + data.length). -/
def visionDigest (s : String) : String :=
  "sha256:" ++ s

/-- slice(0, n) on the base64 payload, kept kernel-reducible. -/
def takePrefixStr (s : String) (n : Nat) : String :=
  String.mk (s.data.take n)

/-- imageKey (src/unnamed/part_001 lines 12-19): URL-sourced blocks are keyed
    by their URL; inline blocks by a digest of the first 2048 base64 characters
    plus the total length. -/
def imageKey (b : ImageSourceV) : String :=
  if b.srcType = "url" ∧ b.url.getD "" ≠ "" then "url:" ++ b.url.getD ""
  else visionDigest (takePrefixStr b.data 2048 ++ ":" ++ toString b.data.length)

def imageOfBlock : ContentBlock → Option ImageSourceV
  | .image src => some src
  | _ => none

/-- The task-collection loop of preprocessImages: every image block of every
    array-form message, in order. -/
def visionTasks (messages : List Message) : List ImageSourceV :=
  messages.flatMap (fun m => (blocksOfContent m.content).filterMap imageOfBlock)

/-- The uncached filter of preprocessImages (src/unnamed/part_001 line 106):
    tasks whose key misses the process-local descriptionCache. -/
def uncachedTasks (cache : List (String × String)) (tasks : List ImageSourceV) :
    List ImageSourceV :=
  tasks.filter (fun t => ((cache.find? (fun p => p.1 == imageKey t)).isNone))

/-- Number of describeImage calls performed for one request: Promise.all maps
    describeImage over exactly the uncached task list. -/
def describeCallCount (cache : List (String × String)) (messages : List Message) : Nat :=
  (uncachedTasks cache (visionTasks messages)).length

/-! ## Google OAuth token refresh (src/adapters/google-auth.ts lines 40-133) -/

structure GoogleTokens where
  accessToken : String
  refreshToken : String
  expiresAt : Int
  email : Option String := none
  projectId : Option String := none
deriving DecidableEq, Repr

/-- The JSON body returned by the Google token endpoint on refresh. The code
    (refreshAccessToken, lines 82-102) reads only access_token and expires_in;
    a refresh_token field in the response, if any, is never read. -/
structure GoogleRefreshResponse where
  accessToken : String
  expiresIn : Int
  refreshTokenField : Option String := none
deriving DecidableEq, Repr

/-- getAccessToken (src/adapters/google-auth.ts lines 105-133). now is
    Date.now() in ms; refreshResp models the token-endpoint exchange
    (none = the HTTP refresh failed). The result carries the returned access
    token, the token record on disk after the call, and whether a refresh
    happened. -/
def googleGetAccessToken (now : Int) (stored : Option GoogleTokens)
    (refreshResp : Option GoogleRefreshResponse) :
    Except String (String × GoogleTokens × Bool) :=
  match stored with
  | none => .error "Not logged in to Google"
  | some t =>
    if now > t.expiresAt - 5 * 60 * 1000 then
      match refreshResp with
      | none => .error "Token refresh failed"
      | some r =>
        let t2 := { t with accessToken := r.accessToken, expiresAt := now + r.expiresIn * 1000 }
        .ok (t2.accessToken, t2, true)
    else .ok (t.accessToken, t, false)

/-! ## Codex OAuth token refresh (src/unnamed/part_001 lines 158-316) -/

structure CodexTokens where
  accessToken : String
  refreshToken : String
  expiresAt : Int
  email : Option String := none
  plan : Option String := none
  accountId : Option String := none
deriving DecidableEq, Repr

/-- The JSON body returned by the OpenAI token endpoint on refresh
    (src/unnamed/part_001 lines 231-252): access_token, an optional rotated
    refresh_token, and expires_in (optional in the code via the 3600 fallback). -/
structure CodexRefreshResponse where
  accessToken : String
  refreshTokenField : Option String := none
  expiresIn : Option Int := none
deriving DecidableEq, Repr

/-- getCodexAccessToken (src/unnamed/part_001 lines 282-316). jwtExp models
    decodeJwtPayload(refreshed.access_token)?.exp, the exp claim of the fresh
    access token. -/
def codexGetAccessToken (now : Int) (stored : Option CodexTokens)
    (refreshResp : Option CodexRefreshResponse) (jwtExp : Option Int) :
    Except String (String × CodexTokens × Bool) :=
  match stored with
  | none => .error "Not logged in to OpenAI"
  | some t =>
    if now > t.expiresAt - 5 * 60 * 1000 then
      match refreshResp with
      | none => .error "OpenAI token refresh failed"
      | some r =>
        let newRefresh :=
          match r.refreshTokenField with
          | some rt => rt
          | none => t.refreshToken
        let newExpiry :=
          match jwtExp with
          | some e => e * 1000
          | none => now + (r.expiresIn.getD 3600) * 1000
        let t2 := { t with
          accessToken := r.accessToken,
          refreshToken := newRefresh,
          expiresAt := newExpiry }
        .ok (t2.accessToken, t2, true)
    else .ok (t.accessToken, t, false)

/-! ## POST /v1/messages dispatch
(src/adapters/anthropic-gateway.ts, consolidated gateway, lines 473-611) -/

/-- The credentials and configuration the dispatch reads. googleLoggedIn /
    codexLoggedIn model whether the respective OAuth adapter can obtain an
    access token (loadTokens succeeding inside the adapter). -/
structure GatewayEnv where
  openaiKey : Option String := none
  openrouterKey : Option String := none
  geminiKey : Option String := none
  anthropicUpstreamUrl : Option String := none
  anthropicKey : Option String := none
  glmUpstreamUrl : Option String := none
  zaiKey : Option String := none
  glmKey : Option String := none
  googleLoggedIn : Bool := false
  codexLoggedIn : Bool := false
deriving DecidableEq, Repr

/-- Observable outcome of one dispatch:
    jsonError — a JSON error reply sent before any streaming header is flushed;
    sseErrorStream — streaming headers were flushed, then the adapter wrote a
    synthetic SSE error message (no JSON reply possible);
    streamStarted — headers flushed, adapter streaming normally;
    passthroughStarted — handed to the passthrough adapter (header flush
    deferred to the adapter). -/
inductive Outcome where
  | jsonError (status : Nat)
  | sseErrorStream
  | streamStarted
  | passthroughStarted
deriving DecidableEq, Repr

/-- The per-provider credential validation and adapter call of the /v1/messages
    handler, after the active-selection write. Key-based providers are checked
    before headers are flushed (JSON 401/500); the OAuth adapters are entered
    only after the headers are flushed, so a missing OAuth token surfaces as a
    synthetic SSE error stream. -/
def dispatchOutcome (env : GatewayEnv) (provider : ProviderKey) : Outcome :=
  match provider with
  | .openai =>
    match env.openaiKey with
    | none => .jsonError 401
    | some _ => .streamStarted
  | .openrouter =>
    match env.openrouterKey with
    | none => .jsonError 401
    | some _ => .streamStarted
  | .geminiOauth =>
    if env.googleLoggedIn then .streamStarted else .sseErrorStream
  | .codexOauth =>
    if env.codexLoggedIn then .streamStarted else .sseErrorStream
  | .gemini =>
    match env.geminiKey with
    | none => .jsonError 401
    | some _ => .streamStarted
  | .anthropic =>
    if env.anthropicUpstreamUrl.isNone ∨ env.anthropicKey.isNone then .jsonError 500
    else .passthroughStarted
  | .glm =>
    if env.glmUpstreamUrl.isNone ∨ ((env.zaiKey.orElse (fun _ => env.glmKey)).isNone) then
      .jsonError 500
    else .passthroughStarted

/-- The /v1/messages handler: parse the model with the active selection as
    defaults, write the active-selection cell unless the provider is the
    Anthropic passthrough, then validate credentials and dispatch. A parse
    failure is caught with no statusCode, yielding a JSON 500. Returns the
    active cell after the request and the outcome. -/
def handleMessages (active : Option ProviderModel) (env : GatewayEnv) (modelField : String) :
    Option ProviderModel × Outcome :=
  match parseProviderModel modelField active with
  | .error _ => (active, .jsonError 500)
  | .ok pm =>
    let active2 :=
      if pm.provider ≠ .anthropic then some ⟨pm.provider, pm.model, none⟩ else active
    (active2, dispatchOutcome env pm.provider)

/-- A fully configured environment: every API key present, both OAuth accounts
    logged in. Used by concrete dispatch scenarios. -/
def envFull : GatewayEnv :=
  { openaiKey := some "sk-o", openrouterKey := some "sk-or", geminiKey := some "sk-g",
    anthropicUpstreamUrl := some "https://a.example", anthropicKey := some "sk-a",
    glmUpstreamUrl := some "https://glm.example", zaiKey := some "sk-z", glmKey := none,
    googleLoggedIn := true, codexLoggedIn := true }

/-- An empty environment: no keys, no OAuth logins. -/
def envNone : GatewayEnv := {}

/-! ## Protocol-A streaming events and the section 4.5 grammar -/

inductive BlockKind where
  | text
  | thinking
  | toolUse
deriving DecidableEq, Repr

inductive DeltaKind where
  | textDelta
  | thinkingDelta
  | inputJsonDelta
deriving DecidableEq, Repr

/-- The Protocol-A SSE events the adapters emit, with the payload reduced to
    what the grammar constrains: event kind and content-block index. -/
inductive AEvent where
  | messageStart
  | blockStart (idx : Nat) (kind : BlockKind)
  | blockDelta (idx : Nat) (kind : DeltaKind)
  | blockStop (idx : Nat)
  | messageDelta (stopToolUse : Bool)
  | messageStop
deriving DecidableEq, Repr

/-- State of the grammar checker: before message_start; inside the block region
    with the next expected index and whether a block is open; after
    message_delta; accepted. -/
inductive VState where
  | start
  | blocks (next : Nat) (opn : Bool)
  | afterDelta
  | done
deriving DecidableEq, Repr

/-- One step of the section 4.5 grammar: indices start at 0 and advance by one
    at each stop, an open block must close at the same index before the next
    opens, and the stream ends with message_delta then message_stop. -/
def vstep : VState → AEvent → Option VState
  | .start, .messageStart => some (.blocks 0 false)
  | .blocks n false, .blockStart i _ => if i = n then some (.blocks n true) else none
  | .blocks n true, .blockDelta i _ => if i = n then some (.blocks n true) else none
  | .blocks n true, .blockStop i => if i = n then some (.blocks (n + 1) false) else none
  | .blocks _ false, .messageDelta _ => some .afterDelta
  | .afterDelta, .messageStop => some .done
  | _, _ => none

def vsteps : VState → List AEvent → Option VState
  | v, [] => some v
  | v, e :: rest =>
    match vstep v e with
    | some v2 => vsteps v2 rest
    | none => none

/-- A full emitted stream is valid when the checker accepts it end to end. -/
def validStream (evs : List AEvent) : Bool :=
  vsteps .start evs == some .done

/-! ## The streaming emitter state machine shared by the adapters
(src/adapters/providers/openrouter.ts lines 145-337 for chatOpenRouter; the
gemini-oauth part of src/adapters/map.ts lines 518-697 for
_chatGeminiOAuthInner; both define the same ensure/close helper functions) -/

/-- The mutable flags of the emitter: contentIndex, hasStartedMessage,
    hasStartedThinking, hasStartedContent. -/
structure EmitCore where
  contentIndex : Nat
  startedMessage : Bool
  startedThinking : Bool
  startedContent : Bool
deriving DecidableEq, Repr

def initCore : EmitCore :=
  { contentIndex := 0, startedMessage := false, startedThinking := false, startedContent := false }

/-- ensureMessageStarted: emit message_start once. -/
def ensureMessageStarted (s : EmitCore) : EmitCore × List AEvent :=
  if s.startedMessage then (s, [])
  else ({ s with startedMessage := true }, [.messageStart])

/-- ensureThinkingBlockStarted: start a thinking block at the current index
    (emitting message_start first if needed). -/
def ensureThinkingStarted (s : EmitCore) : EmitCore × List AEvent :=
  if s.startedThinking then (s, [])
  else
    let s1 := { s with startedThinking := true }
    let p := ensureMessageStarted s1
    (p.1, p.2 ++ [.blockStart p.1.contentIndex .thinking])

/-- closeThinkingBlock: stop the open thinking block and advance the index. -/
def closeThinking (s : EmitCore) : EmitCore × List AEvent :=
  if s.startedThinking then
    ({ s with contentIndex := s.contentIndex + 1, startedThinking := false },
     [.blockStop s.contentIndex])
  else (s, [])

/-- ensureContentBlockStarted: close any open thinking block, then start a text
    block at the current index. -/
def ensureContentStarted (s : EmitCore) : EmitCore × List AEvent :=
  if s.startedContent then (s, [])
  else
    let p1 := closeThinking s
    let s2 := { p1.1 with startedContent := true }
    let p2 := ensureMessageStarted s2
    (p2.1, p1.2 ++ p2.2 ++ [.blockStart p2.1.contentIndex .text])

/-- closeContentBlock: stop the open text block and advance the index. -/
def closeContent (s : EmitCore) : EmitCore × List AEvent :=
  if s.startedContent then
    ({ s with contentIndex := s.contentIndex + 1, startedContent := false },
     [.blockStop s.contentIndex])
  else (s, [])

/-- The reasoning/text part of each adapter's per-event handler: a nonempty
    reasoning chunk yields a thinking delta (opening the thinking block if
    needed), then a nonempty text chunk yields a text delta (opening the text
    block, auto-closing the thinking block, if needed). -/
def procChunk (s : EmitCore) (reasoningChunk textChunk : String) : EmitCore × List AEvent :=
  let p1 :=
    if reasoningChunk ≠ "" then
      let q := ensureThinkingStarted s
      (q.1, q.2 ++ [AEvent.blockDelta q.1.contentIndex .thinkingDelta])
    else (s, ([] : List AEvent))
  let p2 :=
    if textChunk ≠ "" then
      let q := ensureContentStarted p1.1
      (q.1, q.2 ++ [AEvent.blockDelta q.1.contentIndex .textDelta])
    else (p1.1, ([] : List AEvent))
  (p2.1, p1.2 ++ p2.2)

/-- Adapter state: the emitter flags plus the adapter's pending tool-call
    accumulator (openrouter: a numeric-keyed record; gemini: an array). -/
structure AdapterState (π : Type) where
  core : EmitCore
  pending : π

/-- Generic per-upstream-event step: run the reasoning/text handling on the
    event's chunks and update the pending tool-call accumulator (which emits
    no events until the stream ends). -/
def genStep {π δ : Type} (rchunk tchunk : δ → String) (pupd : π → δ → π)
    (s : AdapterState π) (d : δ) : AdapterState π × List AEvent :=
  let p := procChunk s.core (rchunk d) (tchunk d)
  ({ core := p.1, pending := pupd s.pending d }, p.2)

/-- Fold a step function over the upstream events, concatenating emissions. -/
def runEmit {σ δ : Type} (step : σ → δ → σ × List AEvent) : σ → List δ → σ × List AEvent
  | s, [] => (s, [])
  | s, d :: ds =>
    let p := step s d
    let q := runEmit step p.1 ds
    (q.1, p.2 ++ q.2)

/-- The tool_use blocks emitted after the upstream stream ends: per pending
    tool call, a block start, one input_json_delta, and a block stop, at
    consecutive indices. -/
def toolEvents {α : Type} (i : Nat) : List α → List AEvent
  | [] => []
  | _ :: rest =>
    [.blockStart i .toolUse, .blockDelta i .inputJsonDelta, .blockStop i]
      ++ toolEvents (i + 1) rest

/-- The finalization after the upstream stream ends: ensureMessageStarted,
    closeThinkingBlock, closeContentBlock, the pending tool_use blocks, then
    message_delta (stop_reason tool_use iff tools are pending) and
    message_stop. -/
def finalizeEvents {α : Type} (c : EmitCore) (tools : List α) : List AEvent :=
  let p0 := ensureMessageStarted c
  let p1 := closeThinking p0.1
  let p2 := closeContent p1.1
  p0.2 ++ p1.2 ++ p2.2 ++ toolEvents p2.1.contentIndex tools
    ++ [.messageDelta (! tools.isEmpty), .messageStop]

/-! ### OpenRouter instantiation (chatOpenRouter) -/

/-- One entry of delta.tool_calls in an upstream chunk; optional fields are
    absent JSON fields. -/
structure ORToolDelta where
  index : Nat
  id : Option String := none
  fname : Option String := none
  fargs : Option String := none
deriving DecidableEq, Repr

/-- The fields chatOpenRouter reads from one parsed upstream
    choices[0].delta: reasoning, content, tool_calls (absent strings model as ""). -/
structure ORDelta where
  reasoning : String := ""
  content : String := ""
  toolCalls : List ORToolDelta := []
deriving DecidableEq, Repr

structure ToolAcc where
  id : String
  name : String
  args : String
deriving DecidableEq, Repr

/-- Merging one tool_calls entry into the accumulator slot. -/
def applyToolDelta (acc : ToolAcc) (tc : ORToolDelta) : ToolAcc :=
  { id := tc.id.getD acc.id,
    name := acc.name ++ tc.fname.getD "",
    args := acc.args ++ tc.fargs.getD "" }

/-- pendingToolCalls is a JS object with numeric keys, i.e. a map ordered by
    ascending key when Object.values is taken; modelled as a sorted
    association list. -/
def upsertTool (p : List (Nat × ToolAcc)) (tc : ORToolDelta) : List (Nat × ToolAcc) :=
  match p with
  | [] => [(tc.index, applyToolDelta ⟨"", "", ""⟩ tc)]
  | (k, acc) :: rest =>
    if tc.index = k then (k, applyToolDelta acc tc) :: rest
    else if tc.index < k then (tc.index, applyToolDelta ⟨"", "", ""⟩ tc) :: (k, acc) :: rest
    else (k, acc) :: upsertTool rest tc

/-- The per-event handler of chatOpenRouter. -/
def orStep : AdapterState (List (Nat × ToolAcc)) → ORDelta →
    AdapterState (List (Nat × ToolAcc)) × List AEvent :=
  genStep ORDelta.reasoning ORDelta.content (fun p d => d.toolCalls.foldl upsertTool p)

/-- The full emission of chatOpenRouter over a completed upstream stream. -/
def emitOpenRouter (ds : List ORDelta) : List AEvent :=
  let r := runEmit orStep ⟨initCore, []⟩ ds
  r.2 ++ finalizeEvents r.1.core (r.1.pending.map (fun p => p.2))

/-! ### Gemini OAuth instantiation (_chatGeminiOAuthInner) -/

/-- One candidate part of an upstream Gemini SSE event: thought flag, text, and
    an optional functionCall (name, args). -/
structure GeminiStreamPart where
  thought : Bool := false
  text : String := ""
  functionCall : Option (String × Json) := none

/-- One upstream SSE event: the parts of candidates[0].content (an event
    without candidate parts contributes an empty list). -/
structure GeminiStreamEvent where
  parts : List GeminiStreamPart

/-- The thinking chunk of a part: its text when thought is set. -/
def gThinkChunk (p : GeminiStreamPart) : String :=
  if p.thought then p.text else ""

/-- The text chunk of a part: its text when thought is not set. -/
def gTextChunk (p : GeminiStreamPart) : String :=
  if p.thought then "" else p.text

/-- The per-part handler of the Gemini adapter (pendingToolCalls is an array,
    pushed in order; the random toolu_ id is irrelevant to the stream shape). -/
def gPartStep : AdapterState (List (String × Json)) → GeminiStreamPart →
    AdapterState (List (String × Json)) × List AEvent :=
  genStep gThinkChunk gTextChunk
    (fun p q => match q.functionCall with
      | some fc => p ++ [fc]
      | none => p)

/-- The per-event handler: process the event's parts in order. -/
def gEventStep (s : AdapterState (List (String × Json))) (e : GeminiStreamEvent) :
    AdapterState (List (String × Json)) × List AEvent :=
  runEmit gPartStep s e.parts

/-- The full emission of the Gemini OAuth adapter over a completed upstream
    stream. -/
def emitGeminiOAuth (es : List GeminiStreamEvent) : List AEvent :=
  let r := runEmit gEventStep ⟨initCore, []⟩ es
  r.2 ++ finalizeEvents r.1.core r.1.pending

/-! ## Auxiliary predicates used in the claim statements -/

/-- Every tool_use block carrying id x anywhere in the request has name n
    (uniqueness of the id up to its name), as a decidable scan. -/
def consistentToolName (messages : List Message) (x n : String) : Bool :=
  messages.all (fun m => (blocksOfContent m.content).all (fun b =>
    match b with
    | .toolUse id nm _ => decide (id = x → nm = n)
    | _ => true))

/-- Relation between emitter state and checker state: before message_start all
    flags are clear and the index is 0; afterwards the checker sits in the
    block region at the current index, open exactly when a thinking or text
    block is open; the two blocks are never open together. -/
def coreInv (c : EmitCore) (v : VState) : Prop :=
  ¬ (c.startedThinking = true ∧ c.startedContent = true) ∧
  (match c.startedMessage with
   | true => v = .blocks c.contentIndex (c.startedThinking || c.startedContent)
   | false => v = .start ∧ c.startedThinking = false ∧ c.startedContent = false
       ∧ c.contentIndex = 0)

/-! # Theorems -/

/-! ## C4: the Gemini schema sanitizer only keeps whitelisted keys -/

mutual

theorem keysOk_sanitizeSchema (j : Json) (pm : Bool) :
    keysOk (sanitizeSchema j pm) pm = true := by
  cases j with
  | null => simp [sanitizeSchema, keysOk]
  | bool b => simp [sanitizeSchema, keysOk]
  | num n => simp [sanitizeSchema, keysOk]
  | str s => simp [sanitizeSchema, keysOk]
  | arr items => simpa [sanitizeSchema, keysOk] using keysOkItems_sanitizeItems items
  | obj fields => simpa [sanitizeSchema, keysOk] using keysOkFields_sanitizeFields fields pm

theorem keysOkFields_sanitizeFields (l : List (String × Json)) (pm : Bool) :
    keysOkFields (sanitizeFields l pm) pm = true := by
  match l with
  | [] => simp [sanitizeFields, keysOkFields]
  | (k, v) :: rest =>
    rw [sanitizeFields]
    split
    · exact keysOkFields_sanitizeFields rest pm
    · next h =>
      rw [keysOkFields]
      simp only [Bool.and_eq_true]
      refine ⟨⟨?_, keysOk_sanitizeSchema v (k == "properties")⟩,
        keysOkFields_sanitizeFields rest pm⟩
      rcases not_and_or.mp h with h1 | h2
      · simp only [not_not] at h1
        simp [h1]
      · simp only [not_not] at h2
        rw [h2, Bool.or_true]

theorem keysOkItems_sanitizeItems (l : List Json) :
    keysOkItems (sanitizeItems l) = true := by
  match l with
  | [] => simp [sanitizeItems, keysOkItems]
  | j :: rest =>
    rw [sanitizeItems, keysOkItems]
    simp [keysOk_sanitizeSchema j false, keysOkItems_sanitizeItems rest]

end

/-- C4: for any tool input_schema S, every recursively reachable key of
    sanitizeSchema(S) belongs to the GEMINI_ALLOWED whitelist, except keys that
    are immediate children of a properties map, which are preserved without
    whitelisting while their values are sanitized recursively (the keysOk
    checker states exactly this shape). -/
theorem c4_sanitize_schema_whitelist (S : Json) :
    keysOk (sanitizeSchema S false) false = true :=
  keysOk_sanitizeSchema S false

/-! ## C8: router @level suffix algebra -/

theorem strMk_data (s : String) : String.mk s.data = s := by
  cases s
  rfl

theorem strData_append (s t : String) : (s ++ t).data = s.data ++ t.data := rfl

theorem strNe_empty_iff (s : String) : s ≠ "" ↔ s.data ≠ [] := by
  cases s with
  | mk l =>
    constructor
    · intro h hl
      apply h
      simp only [] at hl
      rw [hl]
    · intro h hl
      exact h (congrArg String.data hl)

theorem splitAtLast_eq_none (c : Char) (l : List Char) (h : ¬ l.contains c) :
    splitAtLast c l = none := by
  induction l with
  | nil => rfl
  | cons a rest ih =>
    simp only [List.contains_cons, Bool.or_eq_true, beq_iff_eq, not_or] at h
    rw [splitAtLast, ih h.2]
    exact if_neg (fun hh => h.1 hh.symm)

theorem splitAtLast_append (c : Char) (m suf : List Char) (h : ¬ suf.contains c) :
    splitAtLast c (m ++ c :: suf) = some (m, suf) := by
  induction m with
  | nil =>
    rw [List.nil_append, splitAtLast, splitAtLast_eq_none c suf h]
    simp
  | cons a rest ih =>
    rw [List.cons_append, splitAtLast, ih]

theorem reasoningOfString_reasoningString (lvl : ReasoningLevel) :
    reasoningOfString (lowerStr (reasoningString lvl)) = some lvl := by
  cases lvl <;> rfl

theorem reasoningString_no_at (lvl : ReasoningLevel) :
    ¬ (reasoningString lvl).data.contains '@' := by
  cases lvl <;> decide

/-- When stripReasoning finds no level suffix it leaves the field untouched. -/
theorem stripReasoning_none (s : String) (h : (stripReasoning s).1 = none) :
    stripReasoning s = (none, s) := by
  unfold stripReasoning at h ⊢
  split at h
  · split at h
    · split at h
      · simp at h
      · simp_all
    · simp_all
  · rfl

/-- stripReasoning on a field with a fresh valid @level suffix strips exactly
    that suffix. -/
theorem stripReasoning_append_level (m : String) (lvl : ReasoningLevel) (hm : m ≠ "") :
    stripReasoning (m ++ "@" ++ reasoningString lvl) = (some lvl, m) := by
  have hdata : (m ++ "@" ++ reasoningString lvl).data
      = m.data ++ '@' :: (reasoningString lvl).data := by
    rw [strData_append, strData_append, List.append_assoc]
    rfl
  unfold stripReasoning
  rw [hdata]
  simp only [splitAtLast_append _ _ _ (reasoningString_no_at lvl)]
  rw [if_pos ((strNe_empty_iff m).mp hm)]
  simp only [strMk_data, reasoningOfString_reasoningString]

/-- stripReasoning never strips an unknown @foo suffix: with no further @ in
    foo and foo not a valid level, the whole field is kept. -/
theorem stripReasoning_append_unknown (m foo : String)
    (hfoo : ¬ foo.data.contains '@')
    (hnl : reasoningOfString (lowerStr foo) = none) :
    stripReasoning (m ++ "@" ++ foo) = (none, m ++ "@" ++ foo) := by
  have hdata : (m ++ "@" ++ foo).data = m.data ++ '@' :: foo.data := by
    rw [strData_append, strData_append, List.append_assoc]
    rfl
  unfold stripReasoning
  rw [hdata]
  simp only [splitAtLast_append _ _ _ hfoo]
  simp only [strMk_data, hnl]
  split <;> rfl

/-- The post-strip router body treats the stripped level as an override of any
    default-carried level: running it with level set equals running it with no
    level and then overriding the reasoning field. -/
theorem parseAfterStrip_reasoning_override (raw : String) (lvl : ReasoningLevel)
    (d : Option ProviderModel) :
    parseAfterStrip raw (some lvl) d
      = { parseAfterStrip raw none d with reasoning := some lvl } := by
  simp only [parseAfterStrip]
  generalize (match lookupShortcut (lowerStr raw) with
    | some target => target
    | none => raw) = e
  by_cases h1 : strStartsWith (lowerStr e) "claude-" = true
  · simp [h1]
  · by_cases h2 : strStartsWith (lowerStr e) "glm-" = true
    · simp [h1, h2]
    · by_cases hc : ':' ∈ e.data
      · rcases hsp : splitAtFirst ':' e.data with _ | ⟨pre, suf⟩
        · simp [h1, h2, hc, hsp, Option.orElse]
        · rcases hp : providerOfString (lowerStr (String.mk pre)) with _ | prov
          · simp [h1, h2, hc, hsp, hp, Option.orElse]
          · simp [h1, h2, hc, hsp, hp]
      · by_cases hd : '/' ∈ e.data
        · rcases hsp : splitAtFirst '/' e.data with _ | ⟨pre, suf⟩
          · simp [h1, h2, hc, hd, hsp, Option.orElse]
          · rcases hp : providerOfString (lowerStr (String.mk pre)) with _ | prov
            · simp [h1, h2, hc, hd, hsp, hp, Option.orElse]
            · simp [h1, h2, hc, hd, hsp, hp]
        · simp [h1, h2, hc, hd, Option.orElse]

/-- C8 counterexample: the claim fails as stated. For m = "codex@low" and
    level = high, parse(m@high) does not strip the inner @low (only the last
    @-suffix is examined), so the alias "codex" is never expanded, while
    parse(m) with reasoning := high resolves the alias; the two disagree.
    A second conjunct shows the empty m also breaks the equation: the appended
    level sits at @-index 0 and is not stripped. -/
theorem c8_counterexample :
    parseProviderModel "codex@low@high" none
        = .ok { provider := .glm, model := "codex@low", reasoning := some .high }
    ∧ (parseProviderModel "codex@low" none).map
          (fun pm => { pm with reasoning := some ReasoningLevel.high })
        = .ok { provider := .codexOauth, model := "gpt-5.3-codex", reasoning := some .high }
    ∧ ({ provider := .glm, model := "codex@low", reasoning := some .high } : ProviderModel)
        ≠ { provider := .codexOauth, model := "gpt-5.3-codex", reasoning := some .high }
    ∧ parseProviderModel ("" ++ "@" ++ reasoningString .low)
          (some { provider := .glm, model := "x", reasoning := none })
        = .ok { provider := .glm, model := "x", reasoning := none } := by
  refine ⟨rfl, rfl, ?_, rfl⟩
  decide

/-- C8 (amended): for every nonempty model string m that does not itself end in
    a strippable @level suffix, and every level in the valid set,
    parse(m ++ "@" ++ level) equals parse(m) with reasoning overridden to
    level; and a terminal @foo suffix with foo outside the set (and containing
    no further @) is never stripped and remains part of the model field. -/
theorem c8_parse_reasoning_suffix :
    (∀ (m : String) (lvl : ReasoningLevel) (d : Option ProviderModel),
        m ≠ "" → (stripReasoning m).1 = none →
        parseProviderModel (m ++ "@" ++ reasoningString lvl) d
          = (parseProviderModel m d).map (fun pm => { pm with reasoning := some lvl }))
    ∧ (∀ (m foo : String), ¬ foo.data.contains '@' →
        reasoningOfString (lowerStr foo) = none →
        stripReasoning (m ++ "@" ++ foo) = (none, m ++ "@" ++ foo)) := by
  constructor
  · intro m lvl d hm hnone
    have h1 := stripReasoning_append_level m lvl hm
    have h2 := stripReasoning_none m hnone
    have hne : (m ++ "@" ++ reasoningString lvl) ≠ "" := by
      rw [strNe_empty_iff, strData_append]
      intro hd
      have hnil := (List.append_eq_nil.mp hd).2
      cases lvl <;> exact absurd hnil (by decide)
    unfold parseProviderModel
    rw [if_neg hne, if_neg hm]
    simp only [h1, h2, Except.map]
    exact congrArg Except.ok (parseAfterStrip_reasoning_override m lvl d)
  · intro m foo h1 h2
    exact stripReasoning_append_unknown m foo h1 h2

/-- Witness for C8: the amended equation applied at codex@low, and the
    unknown-suffix clause at x@foo. -/
theorem c8_witness :
    parseProviderModel ("codex" ++ "@" ++ reasoningString .low) none
      = (parseProviderModel "codex" none).map
          (fun pm => { pm with reasoning := some ReasoningLevel.low })
    ∧ stripReasoning ("x" ++ "@" ++ "foo") = (none, "x" ++ "@" ++ "foo") :=
  ⟨c8_parse_reasoning_suffix.1 "codex" .low none (by decide) (by rfl),
   c8_parse_reasoning_suffix.2 "x" "foo" (by decide) (by rfl)⟩

/-! ## C5 / C10: the active-selection cell around dispatch -/

/-- C5 counterexample: a successful dispatch routed to the GLM passthrough DOES
    overwrite the active-selection cell (only the Anthropic passthrough is
    exempt in the code), contradicting the claim that the GLM upstream leaves
    the cell unchanged. -/
theorem c5_counterexample :
    (handleMessages (some ⟨.codexOauth, "gpt-5.3-codex", none⟩) envFull "glm-5").2
        = .passthroughStarted
    ∧ (handleMessages (some ⟨.codexOauth, "gpt-5.3-codex", none⟩) envFull "glm-5").1
        = some ⟨.glm, "glm-5", none⟩
    ∧ (some (⟨.glm, "glm-5", none⟩ : ProviderModel))
        ≠ some (⟨.codexOauth, "gpt-5.3-codex", none⟩ : ProviderModel) := by
  refine ⟨rfl, rfl, by decide⟩

/-- C5 (amended): on every successful dispatch the active-selection cell is set
    to that dispatch's (provider, model), except when the routed provider is
    the Anthropic passthrough, which leaves the cell unchanged; the GLM
    passthrough is NOT exempt. -/
theorem c5_active_selection_update (a : Option ProviderModel) (env : GatewayEnv)
    (f : String) (pm : ProviderModel)
    (hp : parseProviderModel f a = .ok pm)
    (_hs : (handleMessages a env f).2 = .streamStarted
        ∨ (handleMessages a env f).2 = .passthroughStarted) :
    (handleMessages a env f).1
      = if pm.provider = .anthropic then a else some ⟨pm.provider, pm.model, none⟩ := by
  clear _hs
  unfold handleMessages
  rw [hp]
  by_cases hpa : pm.provider = .anthropic
  · simp [hpa]
  · simp [hpa]

/-- Witness for C5: a successful GLM dispatch sets the cell to (glm, glm-5). -/
theorem c5_witness :
    (handleMessages none envFull "glm-5").1
      = if (⟨ProviderKey.glm, "glm-5", none⟩ : ProviderModel).provider = .anthropic then none
        else some ⟨ProviderKey.glm, "glm-5", none⟩ :=
  c5_active_selection_update none envFull "glm-5" ⟨.glm, "glm-5", none⟩ (by rfl)
    (Or.inr (by rfl))

/-- C10: the active-selection cell is written before credential validation: for
    every request routed to a non-Anthropic provider the cell afterwards equals
    the request's (provider, model), whatever the outcome — including pre-stream
    JSON 401/500 failures; it is not restored on error. -/
theorem c10_active_written_before_validation (a : Option ProviderModel) (env : GatewayEnv)
    (f : String) (pm : ProviderModel)
    (hp : parseProviderModel f a = .ok pm)
    (hna : pm.provider ≠ .anthropic) :
    (handleMessages a env f).1 = some ⟨pm.provider, pm.model, none⟩ := by
  unfold handleMessages
  rw [hp]
  simp [hna]

/-- Witness for C10: with no OpenRouter key configured the dispatch fails with
    a pre-stream JSON 401, yet the cell holds the failed request's selection. -/
theorem c10_witness :
    (handleMessages none envNone "openrouter:some/model").1
        = some ⟨ProviderKey.openrouter, "some/model", none⟩
    ∧ (handleMessages none envNone "openrouter:some/model").2 = .jsonError 401 :=
  ⟨c10_active_written_before_validation none envNone "openrouter:some/model"
      ⟨.openrouter, "some/model", none⟩ (by rfl) (by decide), rfl⟩

/-! ## C9: missing credentials at dispatch -/

/-- C9 counterexample: with no Google OAuth token stored, a request routed to
    gemini-oauth does NOT fail pre-stream with a JSON 401: the gateway flushes
    the SSE headers before calling the adapter, and the missing token surfaces
    as a synthetic SSE error stream. -/
theorem c9_counterexample :
    (handleMessages none envNone "gemini").1
        = some ⟨ProviderKey.geminiOauth, "gemini-3-pro-preview", none⟩
    ∧ (handleMessages none envNone "gemini").2 = .sseErrorStream
    ∧ Outcome.sseErrorStream ≠ Outcome.jsonError 401 := by
  refine ⟨rfl, rfl, by decide⟩

/-- C9 (amended): a missing API key for a key-based provider fails pre-stream
    with a JSON 401 (JSON 500 for missing passthrough/default configuration),
    before any streaming header is flushed; but a missing OAuth token for the
    OAuth providers surfaces only AFTER the streaming headers are flushed, as
    a synthetic SSE error stream, not as a JSON 401. -/
theorem c9_credential_missing (a : Option ProviderModel) (env : GatewayEnv) (f : String)
    (pm : ProviderModel) (hp : parseProviderModel f a = .ok pm) :
    (pm.provider = .openai → env.openaiKey = none →
        (handleMessages a env f).2 = .jsonError 401)
    ∧ (pm.provider = .openrouter → env.openrouterKey = none →
        (handleMessages a env f).2 = .jsonError 401)
    ∧ (pm.provider = .gemini → env.geminiKey = none →
        (handleMessages a env f).2 = .jsonError 401)
    ∧ (pm.provider = .anthropic →
        (env.anthropicUpstreamUrl.isNone ∨ env.anthropicKey.isNone) →
        (handleMessages a env f).2 = .jsonError 500)
    ∧ (pm.provider = .glm →
        (env.glmUpstreamUrl.isNone ∨ ((env.zaiKey.orElse (fun _ => env.glmKey)).isNone)) →
        (handleMessages a env f).2 = .jsonError 500)
    ∧ (pm.provider = .geminiOauth → env.googleLoggedIn = false →
        (handleMessages a env f).2 = .sseErrorStream)
    ∧ (pm.provider = .codexOauth → env.codexLoggedIn = false →
        (handleMessages a env f).2 = .sseErrorStream) := by
  unfold handleMessages
  rw [hp]
  refine ⟨?_, ?_, ?_, ?_, ?_, ?_, ?_⟩ <;> intro hprov hcred
  · simp [dispatchOutcome, hprov, hcred]
  · simp [dispatchOutcome, hprov, hcred]
  · simp [dispatchOutcome, hprov, hcred]
  · simp only [hprov]
    show dispatchOutcome env .anthropic = _
    unfold dispatchOutcome
    rw [if_pos hcred]
  · simp only [hprov]
    show dispatchOutcome env .glm = _
    unfold dispatchOutcome
    rw [if_pos hcred]
  · simp [dispatchOutcome, hprov, hcred]
  · simp [dispatchOutcome, hprov, hcred]

/-- Witness for C9: a missing OpenRouter key yields JSON 401 pre-stream. -/
theorem c9_witness :
    (handleMessages none envNone "openrouter:any").2 = .jsonError 401 :=
  (c9_credential_missing none envNone "openrouter:any"
      ⟨.openrouter, "any", none⟩ (by rfl)).2.1 (by rfl) (by rfl)

/-! ## C6 / C7: OAuth token buffer and refresh persistence -/

/-- C6 counterexample: the claim that every outbound call carries a token whose
    stored expiry is at least 5 minutes ahead fails: a refresh whose response
    carries expires_in = 60 seconds is persisted and used immediately, with a
    stored expiry only 60 seconds in the future. -/
theorem c6_counterexample :
    googleGetAccessToken 0 (some ⟨"oldtok", "refresh1", 100, none, none⟩)
        (some ⟨"newtok", 60, none⟩)
      = .ok ("newtok", ⟨"newtok", "refresh1", 60000, none, none⟩, true)
    ∧ ¬ ((60000 : Int) ≥ 0 + 5 * 60 * 1000) := ⟨rfl, by decide⟩

/-- C6 (amended): for both OAuth engines, a successful getAccessToken either
    returns the stored token unchanged — in which case its stored expiry is at
    least 5 minutes in the future — or, exactly when the stored expiry is
    within the 5-minute buffer, performs a refresh, persists its result, and
    returns the fresh token (whatever its new expiry). -/
theorem c6_oauth_refresh_buffer :
    (∀ (now : Int) (t : GoogleTokens) (resp : Option GoogleRefreshResponse)
        (tok : String) (rec : GoogleTokens) (didR : Bool),
        googleGetAccessToken now (some t) resp = .ok (tok, rec, didR) →
        (didR = false → t.expiresAt ≥ now + 5 * 60 * 1000 ∧ tok = t.accessToken ∧ rec = t)
        ∧ (didR = true → t.expiresAt - 5 * 60 * 1000 < now
            ∧ ∃ r, resp = some r
                ∧ rec = { t with accessToken := r.accessToken,
                                 expiresAt := now + r.expiresIn * 1000 }
                ∧ tok = r.accessToken))
    ∧ (∀ (now : Int) (t : CodexTokens) (resp : Option CodexRefreshResponse)
        (jwtExp : Option Int) (tok : String) (rec : CodexTokens) (didR : Bool),
        codexGetAccessToken now (some t) resp jwtExp = .ok (tok, rec, didR) →
        (didR = false → t.expiresAt ≥ now + 5 * 60 * 1000 ∧ tok = t.accessToken ∧ rec = t)
        ∧ (didR = true → t.expiresAt - 5 * 60 * 1000 < now
            ∧ ∃ r, resp = some r ∧ tok = r.accessToken ∧ rec.accessToken = r.accessToken)) := by
  constructor
  · intro now t resp tok rec didR h
    simp only [googleGetAccessToken] at h
    by_cases hgt : now > t.expiresAt - 5 * 60 * 1000
    · rw [if_pos hgt] at h
      cases resp with
      | none => simp at h
      | some r =>
        simp only [Except.ok.injEq, Prod.mk.injEq] at h
        obtain ⟨htok, hrec, hdid⟩ := h
        constructor
        · intro h0
          rw [← hdid] at h0
          simp at h0
        · intro _
          exact ⟨by omega, r, rfl, hrec.symm, htok.symm⟩
    · rw [if_neg hgt] at h
      simp only [Except.ok.injEq, Prod.mk.injEq] at h
      obtain ⟨htok, hrec, hdid⟩ := h
      constructor
      · intro _
        refine ⟨by omega, htok.symm, hrec.symm⟩
      · intro h1
        rw [← hdid] at h1
        simp at h1
  · intro now t resp jwtExp tok rec didR h
    simp only [codexGetAccessToken] at h
    by_cases hgt : now > t.expiresAt - 5 * 60 * 1000
    · rw [if_pos hgt] at h
      cases resp with
      | none => simp at h
      | some r =>
        simp only [Except.ok.injEq, Prod.mk.injEq] at h
        obtain ⟨htok, hrec, hdid⟩ := h
        constructor
        · intro h0
          rw [← hdid] at h0
          simp at h0
        · intro _
          refine ⟨by omega, r, rfl, htok.symm, ?_⟩
          rw [← hrec]
    · rw [if_neg hgt] at h
      simp only [Except.ok.injEq, Prod.mk.injEq] at h
      obtain ⟨htok, hrec, hdid⟩ := h
      constructor
      · intro _
        refine ⟨by omega, htok.symm, hrec.symm⟩
      · intro h1
        rw [← hdid] at h1
        simp at h1

/-- Witness for C6: a token expiring far in the future is returned unchanged
    with no refresh. -/
theorem c6_witness :
    (1000000 : Int) ≥ 0 + 5 * 60 * 1000
    ∧ "tokA" = "tokA"
    ∧ (⟨"tokA", "ref", 1000000, none, none⟩ : GoogleTokens)
        = ⟨"tokA", "ref", 1000000, none, none⟩ :=
  (c6_oauth_refresh_buffer.1 0 ⟨"tokA", "ref", 1000000, none, none⟩ none "tokA"
      ⟨"tokA", "ref", 1000000, none, none⟩ false rfl).1 rfl

/-- C7 counterexample: the Google refresh handler never reads a refresh_token
    field of the token-endpoint response: when the response carries a rotated
    refresh token r2, the persisted record still holds the old r1. -/
theorem c7_counterexample :
    googleGetAccessToken 0 (some ⟨"a", "r1", 0, none, none⟩)
        (some ⟨"b", 3600, some "r2"⟩)
      = .ok ("b", ⟨"b", "r1", 3600000, none, none⟩, true)
    ∧ ("r1" : String) ≠ "r2" := ⟨rfl, by decide⟩

/-- C7 (amended): after every successful silent refresh the persisted record
    holds the new access token; the Google engine recomputes the expiry as
    now + expires_in * 1000 and always keeps the OLD refresh token (the
    response's refresh_token is not read), while the Codex engine persists a
    provided new refresh_token and takes the expiry from the fresh JWT exp
    claim when present (falling back to now + (expires_in or 3600) * 1000). -/
theorem c7_refresh_persists :
    (∀ (now : Int) (t : GoogleTokens) (r : GoogleRefreshResponse)
        (tok : String) (rec : GoogleTokens) (didR : Bool),
        googleGetAccessToken now (some t) (some r) = .ok (tok, rec, didR) →
        didR = true →
        rec.accessToken = r.accessToken
        ∧ rec.expiresAt - now = r.expiresIn * 1000
        ∧ rec.refreshToken = t.refreshToken)
    ∧ (∀ (now : Int) (t : CodexTokens) (r : CodexRefreshResponse) (jwtExp : Option Int)
        (tok : String) (rec : CodexTokens) (didR : Bool),
        codexGetAccessToken now (some t) (some r) jwtExp = .ok (tok, rec, didR) →
        didR = true →
        rec.accessToken = r.accessToken
        ∧ rec.refreshToken = (match r.refreshTokenField with
            | some rt => rt
            | none => t.refreshToken)
        ∧ rec.expiresAt = (match jwtExp with
            | some e => e * 1000
            | none => now + (r.expiresIn.getD 3600) * 1000)) := by
  constructor
  · intro now t r tok rec didR h hdidR
    simp only [googleGetAccessToken] at h
    by_cases hgt : now > t.expiresAt - 5 * 60 * 1000
    · rw [if_pos hgt] at h
      simp only [Except.ok.injEq, Prod.mk.injEq] at h
      obtain ⟨htok, hrec, hdid⟩ := h
      rw [← hrec]
      dsimp only
      refine ⟨rfl, by omega, rfl⟩
    · rw [if_neg hgt] at h
      simp only [Except.ok.injEq, Prod.mk.injEq] at h
      obtain ⟨htok, hrec, hdid⟩ := h
      rw [← hdid] at hdidR
      simp at hdidR
  · intro now t r jwtExp tok rec didR h hdidR
    simp only [codexGetAccessToken] at h
    by_cases hgt : now > t.expiresAt - 5 * 60 * 1000
    · rw [if_pos hgt] at h
      simp only [Except.ok.injEq, Prod.mk.injEq] at h
      obtain ⟨htok, hrec, hdid⟩ := h
      rw [← hrec]
      exact ⟨rfl, rfl, rfl⟩
    · rw [if_neg hgt] at h
      simp only [Except.ok.injEq, Prod.mk.injEq] at h
      obtain ⟨htok, hrec, hdid⟩ := h
      rw [← hdid] at hdidR
      simp at hdidR

/-- Witness for C7: the refresh at the C7 counterexample input persists the new
    access token, the recomputed expiry, and the OLD refresh token. -/
theorem c7_witness :
    ("b" : String) = "b"
    ∧ (3600000 : Int) - 0 = 3600 * 1000
    ∧ ("r1" : String) = "r1" :=
  c7_refresh_persists.1 0 ⟨"a", "r1", 0, none, none⟩ ⟨"b", 3600, some "r2"⟩ "b"
    ⟨"b", "r1", 3600000, none, none⟩ true rfl rfl

/-! ## C3: the vision description cache within one request -/

/-- C3: the claim is right and the code is wrong. With an empty cache, a
    request carrying two image blocks with identical inline base64 data makes
    TWO describeImage calls: preprocessImages filters tasks only against the
    cross-request descriptionCache, which contains neither copy yet, so both
    identical blocks land in the uncached list mapped over describeImage. The
    shared key (same digest input) shows the pair should have been deduplicated. -/
theorem c3_vision_cache_two_calls :
    describeCallCount []
      [⟨.user, .blocks
        [.image ⟨"base64", "image/png", "AAAA", none⟩,
         .image ⟨"base64", "image/png", "AAAA", none⟩]⟩] = 2
    ∧ imageKey ⟨"base64", "image/png", "AAAA", none⟩
        = imageKey ⟨"base64", "image/png", "AAAA", none⟩
    ∧ ¬ (2 ≤ 1) :=
  ⟨rfl, rfl, by decide⟩

/-! ## C2: tool_use / tool_result pair encoding in the three converters -/

theorem pair_sublist_of_mem_append {α : Type} (a b : α) (l1 l2 : List α)
    (h1 : a ∈ l1) (h2 : b ∈ l2) : [a, b].Sublist (l1 ++ l2) :=
  List.Sublist.append (List.singleton_sublist.mpr h1) (List.singleton_sublist.mpr h2)

theorem findToolNameInBlocks_isSome (tid nm : String) (inp : Json)
    (bs : List ContentBlock) (h : ContentBlock.toolUse tid nm inp ∈ bs) :
    ∃ nm2, findToolNameInBlocks tid bs = some nm2 := by
  induction bs with
  | nil => cases h
  | cons b rest ih =>
    cases b with
    | toolUse id name i =>
      rw [findToolNameInBlocks]
      by_cases hid : id = tid
      · exact ⟨name, if_pos hid⟩
      · rw [if_neg hid]
        rcases List.mem_cons.mp h with heq | h2
        · injection heq with h1 h2 h3
          exact absurd h1.symm hid
        · exact ih h2
    | text t =>
      rw [findToolNameInBlocks]
      rcases List.mem_cons.mp h with heq | h2
      · cases heq
      · exact ih h2
    | image src =>
      rw [findToolNameInBlocks]
      rcases List.mem_cons.mp h with heq | h2
      · cases heq
      · exact ih h2
    | toolResult t c =>
      rw [findToolNameInBlocks]
      rcases List.mem_cons.mp h with heq | h2
      · cases heq
      · exact ih h2

theorem findToolNameInBlocks_sound (tid nm : String) (bs : List ContentBlock)
    (h : findToolNameInBlocks tid bs = some nm) :
    ∃ inp, ContentBlock.toolUse tid nm inp ∈ bs := by
  induction bs with
  | nil => cases h
  | cons b rest ih =>
    cases b with
    | toolUse id name i =>
      rw [findToolNameInBlocks] at h
      by_cases hid : id = tid
      · rw [if_pos hid] at h
        obtain rfl : name = nm := by injection h
        exact ⟨i, by rw [← hid]; exact List.mem_cons_self _ _⟩
      · rw [if_neg hid] at h
        obtain ⟨inp, hmem⟩ := ih h
        exact ⟨inp, List.mem_cons_of_mem _ hmem⟩
    | text t =>
      rw [findToolNameInBlocks] at h
      obtain ⟨inp, hmem⟩ := ih h
      exact ⟨inp, List.mem_cons_of_mem _ hmem⟩
    | image src =>
      rw [findToolNameInBlocks] at h
      obtain ⟨inp, hmem⟩ := ih h
      exact ⟨inp, List.mem_cons_of_mem _ hmem⟩
    | toolResult t c =>
      rw [findToolNameInBlocks] at h
      obtain ⟨inp, hmem⟩ := ih h
      exact ⟨inp, List.mem_cons_of_mem _ hmem⟩

theorem findToolNameAux_cons_str (tid : String) (m : Message) (rest : List Message)
    (s : String) (h : m.content = .str s) :
    findToolNameAux tid (m :: rest) = findToolNameAux tid rest := by
  rw [findToolNameAux, h]

theorem findToolNameAux_cons_blocks (tid : String) (m : Message) (rest : List Message)
    (bs : List ContentBlock) (h : m.content = .blocks bs) :
    findToolNameAux tid (m :: rest)
      = (match findToolNameInBlocks tid bs with
         | some n2 => some n2
         | none => findToolNameAux tid rest) := by
  rw [findToolNameAux, h]

theorem findToolNameAux_isSome (tid : String) (msgs : List Message)
    (hex : ∃ m ∈ msgs, ∃ bs, m.content = .blocks bs
        ∧ ∃ nm inp, ContentBlock.toolUse tid nm inp ∈ bs) :
    ∃ nm2, findToolNameAux tid msgs = some nm2 := by
  induction msgs with
  | nil =>
    obtain ⟨m, hm, _⟩ := hex
    cases hm
  | cons m rest ih =>
    obtain ⟨m2, hm2, bs, hbs, nm, inp, hmem⟩ := hex
    rcases List.mem_cons.mp hm2 with heq | hm3
    · subst heq
      obtain ⟨nm2, hfind⟩ := findToolNameInBlocks_isSome tid nm inp bs hmem
      rw [findToolNameAux_cons_blocks tid _ rest bs hbs, hfind]
      exact ⟨nm2, rfl⟩
    · cases hmc : m.content with
      | str s =>
        rw [findToolNameAux_cons_str tid m rest s hmc]
        exact ih ⟨m2, hm3, bs, hbs, nm, inp, hmem⟩
      | blocks bs2 =>
        rw [findToolNameAux_cons_blocks tid m rest bs2 hmc]
        cases hfind : findToolNameInBlocks tid bs2 with
        | some nm3 => exact ⟨nm3, rfl⟩
        | none => exact ih ⟨m2, hm3, bs, hbs, nm, inp, hmem⟩

theorem findToolNameAux_sound (tid nm : String) (msgs : List Message)
    (h : findToolNameAux tid msgs = some nm) :
    ∃ m ∈ msgs, ∃ bs, m.content = .blocks bs
        ∧ ∃ inp, ContentBlock.toolUse tid nm inp ∈ bs := by
  induction msgs with
  | nil => cases h
  | cons m rest ih =>
    cases hmc : m.content with
    | str s =>
      rw [findToolNameAux_cons_str tid m rest s hmc] at h
      obtain ⟨m2, hm2, bs, hbs, inp, hmem⟩ := ih h
      exact ⟨m2, List.mem_cons_of_mem _ hm2, bs, hbs, inp, hmem⟩
    | blocks bs =>
      rw [findToolNameAux_cons_blocks tid m rest bs hmc] at h
      cases hfind : findToolNameInBlocks tid bs with
      | some nm3 =>
        rw [hfind] at h
        simp only [Option.some.injEq] at h
        subst h
        obtain ⟨inp, hmem⟩ := findToolNameInBlocks_sound tid nm3 bs hfind
        exact ⟨m, List.mem_cons_self _ _, bs, hmc, inp, hmem⟩
      | none =>
        rw [hfind] at h
        simp only [] at h
        obtain ⟨m2, hm2, bs2, hbs2, inp, hmem⟩ := ih h
        exact ⟨m2, List.mem_cons_of_mem _ hm2, bs2, hbs2, inp, hmem⟩

/-- With a consistent id-to-name mapping and an actual tool_use in the history,
    findToolName recovers the name. -/
theorem findToolName_eq (msgs : List Message) (x n : String)
    (hex : ∃ m ∈ msgs, ∃ bs, m.content = .blocks bs
        ∧ ∃ inp, ContentBlock.toolUse x n inp ∈ bs)
    (hc : consistentToolName msgs x n = true) :
    findToolName msgs x = n := by
  obtain ⟨m0, hm0, bs0, hbs0, inp0, hmem0⟩ := hex
  obtain ⟨nm2, haux⟩ := findToolNameAux_isSome x msgs ⟨m0, hm0, bs0, hbs0, n, inp0, hmem0⟩
  obtain ⟨m, hm, bs, hbs, inp, hmem⟩ := findToolNameAux_sound x nm2 msgs haux
  rw [consistentToolName, List.all_eq_true] at hc
  have h1 := hc m hm
  rw [List.all_eq_true] at h1
  have h2 := h1 (.toolUse x nm2 inp) (by rw [hbs]; exact hmem)
  have h3 : nm2 = n := (of_decide_eq_true h2) rfl
  rw [findToolName, haux, Option.getD_some, h3]

theorem pushMerged_eq_none (acc : List GContent) (r : String) (ps : List GPart)
    (h : acc.getLast? = none) : pushMergedContent acc r ps = [⟨r, ps⟩] := by
  unfold pushMergedContent
  rw [h]

theorem pushMerged_eq_some (acc : List GContent) (r : String) (ps : List GPart)
    (c : GContent) (h : acc.getLast? = some c) :
    pushMergedContent acc r ps
      = if c.role = r then acc.dropLast ++ [⟨c.role, c.parts ++ ps⟩]
        else acc ++ [⟨r, ps⟩] := by
  unfold pushMergedContent
  rw [h]

theorem flatMapParts_pushMerged (acc : List GContent) (r : String) (ps : List GPart) :
    (pushMergedContent acc r ps).flatMap GContent.parts
      = acc.flatMap GContent.parts ++ ps := by
  cases hlast : acc.getLast? with
  | none =>
    rw [pushMerged_eq_none acc r ps hlast, List.getLast?_eq_none_iff.mp hlast]
    simp
  | some c =>
    have hacc : acc.dropLast ++ [c] = acc := List.dropLast_append_getLast? c hlast
    rw [pushMerged_eq_some acc r ps c hlast]
    by_cases hrole : c.role = r
    · rw [if_pos hrole]
      conv_rhs => rw [← hacc]
      simp [List.flatMap_append]
    · rw [if_neg hrole]
      simp [List.flatMap_append]

theorem foldl_pushMerged_parts (all ms : List Message) (acc : List GContent) :
    ((ms.foldl (fun merged m =>
        pushMergedContent merged (geminiRole m.role) (toGeminiParts m.content all)) acc).flatMap
      GContent.parts)
      = acc.flatMap GContent.parts
        ++ ms.flatMap (fun m => toGeminiParts m.content all) := by
  induction ms generalizing acc with
  | nil => simp
  | cons m rest ih =>
    rw [List.foldl_cons, ih, flatMapParts_pushMerged]
    simp [List.flatMap_cons]

/-- The parts of the merged Gemini contents are exactly the per-message parts
    in message order. -/
theorem toGeminiContents_parts (msgs : List Message) :
    (toGeminiContents msgs).flatMap GContent.parts
      = msgs.flatMap (fun m => toGeminiParts m.content msgs) := by
  rw [toGeminiContents, foldl_pushMerged_parts]
  rfl

/-- C2: whenever an assistant message carries tool_use (id x, name n) and the
    next user message carries the matching tool_result (tool_use_id x), and x
    names a unique tool, then: the Responses input contains a function_call
    with call_id x and name n followed by a function_call_output with call_id
    x; the Chat Completions messages contain an assistant message whose
    tool_calls include (id x, name n) followed by a tool-role message with
    tool_call_id x; and the Gemini contents contain a functionCall part named n
    and a functionResponse part named n. -/
theorem c2_tool_pair_encoding
    (pre suf : List Message) (aBlocks uBlocks : List ContentBlock)
    (x n : String) (inp out : Json) (msgs : List Message)
    (hmsgs : msgs = pre ++ ⟨.assistant, .blocks aBlocks⟩ :: ⟨.user, .blocks uBlocks⟩ :: suf)
    (hA : ContentBlock.toolUse x n inp ∈ aBlocks)
    (hU : ContentBlock.toolResult x out ∈ uBlocks)
    (huniq : consistentToolName msgs x n = true) :
    ([RItem.functionCall x n inp, RItem.functionCallOutput x out]).Sublist
        (toResponsesInput msgs)
    ∧ (∃ cOpt tcs, ([OAIMsg.assistantWithTools cOpt tcs, OAIMsg.toolReply x out]).Sublist
          (toOpenAIMessagesWithTools msgs)
        ∧ (⟨x, n, inp⟩ : OAIToolCall) ∈ tcs)
    ∧ (∃ c1 ∈ toGeminiContents msgs, GPart.functionCall n inp ∈ c1.parts)
    ∧ (∃ c2 ∈ toGeminiContents msgs, GPart.functionResponse n out ∈ c2.parts) := by
  have hAmem : (⟨.assistant, .blocks aBlocks⟩ : Message) ∈ msgs := by
    rw [hmsgs]
    exact List.mem_append_right _ (List.mem_cons_self _ _)
  have hUmem : (⟨.user, .blocks uBlocks⟩ : Message) ∈ msgs := by
    rw [hmsgs]
    exact List.mem_append_right _ (List.mem_cons_of_mem _ (List.mem_cons_self _ _))
  refine ⟨?_, ?_, ?_, ?_⟩
  · -- Responses API
    rw [toResponsesInput, hmsgs, List.flatMap_append, List.flatMap_cons, List.flatMap_cons]
    have hfc : RItem.functionCall x n inp
        ∈ responsesItemsOfMessage ⟨.assistant, .blocks aBlocks⟩ := by
      rw [responsesItemsOfMessage]
      refine List.mem_append_left _ (List.mem_append_right _ ?_)
      exact List.mem_filterMap.mpr ⟨.toolUse x n inp, hA, rfl⟩
    have hfo : RItem.functionCallOutput x out
        ∈ responsesItemsOfMessage ⟨.user, .blocks uBlocks⟩ := by
      rw [responsesItemsOfMessage]
      exact List.mem_append_right _ (List.mem_filterMap.mpr ⟨.toolResult x out, hU, rfl⟩)
    have := pair_sublist_of_mem_append (RItem.functionCall x n inp)
      (RItem.functionCallOutput x out)
      (pre.flatMap responsesItemsOfMessage ++ responsesItemsOfMessage ⟨.assistant, .blocks aBlocks⟩)
      (responsesItemsOfMessage ⟨.user, .blocks uBlocks⟩ ++ suf.flatMap responsesItemsOfMessage)
      (List.mem_append_right _ hfc) (List.mem_append_left _ hfo)
    simpa [List.append_assoc] using this
  · -- Chat Completions
    rw [toOpenAIMessagesWithTools, hmsgs, List.flatMap_append, List.flatMap_cons,
      List.flatMap_cons]
    have htcmem : (⟨x, n, inp⟩ : OAIToolCall) ∈ aBlocks.filterMap oaiToolCallOfBlock :=
      List.mem_filterMap.mpr ⟨.toolUse x n inp, hA, rfl⟩
    have hne : (aBlocks.filterMap oaiToolCallOfBlock).isEmpty = false := by
      cases he : (aBlocks.filterMap oaiToolCallOfBlock) with
      | nil => rw [he] at htcmem; cases htcmem
      | cons a rest => rfl
    have hAmsg : OAIMsg.assistantWithTools
        (if String.join (aBlocks.filterMap textOfBlock) = "" then none
         else some (String.join (aBlocks.filterMap textOfBlock)))
        (aBlocks.filterMap oaiToolCallOfBlock)
        ∈ openAIMsgsOfMessage ⟨.assistant, .blocks aBlocks⟩ := by
      rw [openAIMsgsOfMessage]
      simp only [hne]
      exact List.mem_append_left _ (by simp)
    have hUmsg : OAIMsg.toolReply x out ∈ openAIMsgsOfMessage ⟨.user, .blocks uBlocks⟩ := by
      rw [openAIMsgsOfMessage]
      exact List.mem_append_right _ (List.mem_filterMap.mpr ⟨.toolResult x out, hU, rfl⟩)
    refine ⟨(if String.join (aBlocks.filterMap textOfBlock) = "" then none
        else some (String.join (aBlocks.filterMap textOfBlock))),
      aBlocks.filterMap oaiToolCallOfBlock, ?_, htcmem⟩
    have := pair_sublist_of_mem_append _ (OAIMsg.toolReply x out)
      (pre.flatMap openAIMsgsOfMessage ++ openAIMsgsOfMessage ⟨.assistant, .blocks aBlocks⟩)
      (openAIMsgsOfMessage ⟨.user, .blocks uBlocks⟩ ++ suf.flatMap openAIMsgsOfMessage)
      (List.mem_append_right _ hAmsg) (List.mem_append_left _ hUmsg)
    simpa [List.append_assoc] using this
  · -- Gemini functionCall part
    have hpart : GPart.functionCall n inp
        ∈ toGeminiParts (MessageContent.blocks aBlocks) msgs := by
      have hmemf : GPart.functionCall n inp
          ∈ aBlocks.filterMap (gPartOfBlock msgs) :=
        List.mem_filterMap.mpr ⟨.toolUse x n inp, hA, rfl⟩
      rw [toGeminiParts]
      have hne : (aBlocks.filterMap (gPartOfBlock msgs)).isEmpty = false := by
        cases he : aBlocks.filterMap (gPartOfBlock msgs) with
        | nil => rw [he] at hmemf; cases hmemf
        | cons a rest => rfl
      simp only [hne]
      simpa using hmemf
    have : GPart.functionCall n inp
        ∈ (toGeminiContents msgs).flatMap GContent.parts := by
      rw [toGeminiContents_parts]
      exact List.mem_flatMap.mpr ⟨⟨.assistant, .blocks aBlocks⟩, hAmem, hpart⟩
    exact List.exists_of_mem_flatMap this
  · -- Gemini functionResponse part
    have hname : findToolName msgs x = n :=
      findToolName_eq msgs x n ⟨⟨.assistant, .blocks aBlocks⟩, hAmem, aBlocks, rfl, inp, hA⟩
        huniq
    have hpart : GPart.functionResponse n out
        ∈ toGeminiParts (MessageContent.blocks uBlocks) msgs := by
      have hmemf : GPart.functionResponse n out
          ∈ uBlocks.filterMap (gPartOfBlock msgs) := by
        refine List.mem_filterMap.mpr ⟨.toolResult x out, hU, ?_⟩
        rw [gPartOfBlock, hname]
      rw [toGeminiParts]
      have hne : (uBlocks.filterMap (gPartOfBlock msgs)).isEmpty = false := by
        cases he : uBlocks.filterMap (gPartOfBlock msgs) with
        | nil => rw [he] at hmemf; cases hmemf
        | cons a rest => rfl
      simp only [hne]
      simpa using hmemf
    have : GPart.functionResponse n out
        ∈ (toGeminiContents msgs).flatMap GContent.parts := by
      rw [toGeminiContents_parts]
      exact List.mem_flatMap.mpr ⟨⟨.user, .blocks uBlocks⟩, hUmem, hpart⟩
    exact List.exists_of_mem_flatMap this

/-- Witness for C2 at a concrete three-message conversation. -/
theorem c2_witness :
    ([RItem.functionCall "toolu_1" "search" (Json.str "q"),
      RItem.functionCallOutput "toolu_1" (Json.str "ok")]).Sublist
        (toResponsesInput
          [⟨.user, .str "look up X"⟩,
           ⟨.assistant, .blocks [.toolUse "toolu_1" "search" (Json.str "q")]⟩,
           ⟨.user, .blocks [.toolResult "toolu_1" (Json.str "ok")]⟩])
    ∧ (∃ cOpt tcs, ([OAIMsg.assistantWithTools cOpt tcs,
          OAIMsg.toolReply "toolu_1" (Json.str "ok")]).Sublist
          (toOpenAIMessagesWithTools
            [⟨.user, .str "look up X"⟩,
             ⟨.assistant, .blocks [.toolUse "toolu_1" "search" (Json.str "q")]⟩,
             ⟨.user, .blocks [.toolResult "toolu_1" (Json.str "ok")]⟩])
        ∧ (⟨"toolu_1", "search", Json.str "q"⟩ : OAIToolCall) ∈ tcs)
    ∧ (∃ c1 ∈ toGeminiContents
          [⟨.user, .str "look up X"⟩,
           ⟨.assistant, .blocks [.toolUse "toolu_1" "search" (Json.str "q")]⟩,
           ⟨.user, .blocks [.toolResult "toolu_1" (Json.str "ok")]⟩],
        GPart.functionCall "search" (Json.str "q") ∈ c1.parts)
    ∧ (∃ c2 ∈ toGeminiContents
          [⟨.user, .str "look up X"⟩,
           ⟨.assistant, .blocks [.toolUse "toolu_1" "search" (Json.str "q")]⟩,
           ⟨.user, .blocks [.toolResult "toolu_1" (Json.str "ok")]⟩],
        GPart.functionResponse "search" (Json.str "ok") ∈ c2.parts) :=
  c2_tool_pair_encoding
    [⟨.user, .str "look up X"⟩] []
    [.toolUse "toolu_1" "search" (Json.str "q")]
    [.toolResult "toolu_1" (Json.str "ok")]
    "toolu_1" "search" (Json.str "q") (Json.str "ok") _
    rfl (List.mem_cons_self _ _) (List.mem_cons_self _ _) rfl

/-! ## C1: the emitted stream matches the section 4.5 grammar -/

theorem vsteps_append (a b : List AEvent) (v : VState) :
    vsteps v (a ++ b) = (vsteps v a).bind (fun v2 => vsteps v2 b) := by
  induction a generalizing v with
  | nil => rfl
  | cons e rest ih =>
    rw [List.cons_append, vsteps, vsteps]
    cases vstep v e with
    | none => rfl
    | some v2 => exact ih v2

theorem runEmit_append {σ δ : Type} (step : σ → δ → σ × List AEvent) (s : σ)
    (l1 l2 : List δ) :
    runEmit step s (l1 ++ l2)
      = ((runEmit step (runEmit step s l1).1 l2).1,
         (runEmit step s l1).2 ++ (runEmit step (runEmit step s l1).1 l2).2) := by
  induction l1 generalizing s with
  | nil => simp [runEmit]
  | cons d rest ih =>
    rw [List.cons_append, runEmit, ih]
    simp [runEmit, List.append_assoc]

/-- The Gemini adapter (loop over events, inner loop over parts) emits exactly
    what the per-part machine emits over the flattened part sequence. -/
theorem runEmit_gEvent_flatten (es : List GeminiStreamEvent)
    (s : AdapterState (List (String × Json))) :
    runEmit gEventStep s es
      = runEmit gPartStep s (es.flatMap GeminiStreamEvent.parts) := by
  induction es generalizing s with
  | nil => rfl
  | cons e rest ih =>
    rw [List.flatMap_cons, runEmit_append, runEmit]
    rw [gEventStep] at *
    rw [ih]

theorem toolEvents_steps {α : Type} (tools : List α) (i : Nat) :
    vsteps (.blocks i false) (toolEvents i tools)
      = some (.blocks (i + tools.length) false) := by
  induction tools generalizing i with
  | nil => simp [toolEvents, vsteps]
  | cons a rest ih =>
    rw [toolEvents]
    have harith : i + 1 + rest.length = i + (rest.length + 1) := by omega
    simp [vsteps, vstep, ih (i + 1), harith]

/-- After all content blocks are closed, the finalize tail (pending tool_use
    blocks, message_delta, message_stop) is accepted. -/
theorem tail_steps {α : Type} (i : Nat) (tools : List α) (b : Bool) :
    vsteps (.blocks i false) (toolEvents i tools ++ [.messageDelta b, .messageStop])
      = some .done := by
  rw [vsteps_append, toolEvents_steps]
  rfl

/-- From any state related to the checker, the finalize sequence drives the
    checker to acceptance. -/
theorem finalize_sim {α : Type} (c : EmitCore) (v : VState) (tools : List α)
    (hInv : coreInv c v) :
    vsteps v (finalizeEvents c tools) = some .done := by
  obtain ⟨idx, m, th, co⟩ := c
  obtain ⟨hexcl, hv⟩ := hInv
  cases m with
  | false =>
    obtain ⟨rfl, rfl, rfl, rfl⟩ := hv
    simp [finalizeEvents, ensureMessageStarted, closeThinking, closeContent,
      vsteps, vstep, vsteps_append, toolEvents_steps]
  | true =>
    cases th with
    | true =>
      cases co with
      | true => exact absurd ⟨rfl, rfl⟩ hexcl
      | false =>
        obtain rfl := hv
        simp [finalizeEvents, ensureMessageStarted, closeThinking, closeContent,
          vsteps, vstep, vsteps_append, toolEvents_steps]
    | false =>
      cases co with
      | true =>
        obtain rfl := hv
        simp [finalizeEvents, ensureMessageStarted, closeThinking, closeContent,
          vsteps, vstep, vsteps_append, toolEvents_steps]
      | false =>
        obtain rfl := hv
        simp [finalizeEvents, ensureMessageStarted, closeThinking, closeContent,
          vsteps, vstep, vsteps_append, toolEvents_steps]

/-- Starting (or continuing) a thinking block plus its delta is accepted and
    leaves the machine with an open thinking block at the current index. -/
theorem ensureThinkingStarted_sim (c : EmitCore) (v : VState)
    (hInv : coreInv c v) (hco : c.startedContent = false) :
    vsteps v ((ensureThinkingStarted c).2
        ++ [AEvent.blockDelta (ensureThinkingStarted c).1.contentIndex .thinkingDelta])
      = some (.blocks c.contentIndex true)
    ∧ (ensureThinkingStarted c).1
        = { contentIndex := c.contentIndex, startedMessage := true,
            startedThinking := true, startedContent := false } := by
  obtain ⟨idx, m, th, co⟩ := c
  obtain ⟨hexcl, hv⟩ := hInv
  have hco2 : co = false := hco
  subst hco2
  cases th with
  | true =>
    cases m with
    | false => exact Bool.noConfusion hv.2.1
    | true =>
      obtain rfl := hv
      simp [ensureThinkingStarted, vsteps, vstep]
  | false =>
    cases m with
    | false =>
      obtain ⟨rfl, -, -, hidx⟩ := hv
      have hidx2 : idx = 0 := hidx
      subst hidx2
      simp [ensureThinkingStarted, ensureMessageStarted, vsteps, vstep]
    | true =>
      obtain rfl := hv
      simp [ensureThinkingStarted, ensureMessageStarted, vsteps, vstep]

/-- Starting (or continuing) a text block plus its delta is accepted, closing
    any open thinking block first, and leaves an open text block. -/
theorem ensureContentStarted_sim (c : EmitCore) (v : VState) (hInv : coreInv c v) :
    vsteps v ((ensureContentStarted c).2
        ++ [AEvent.blockDelta (ensureContentStarted c).1.contentIndex .textDelta])
      = some (.blocks (ensureContentStarted c).1.contentIndex true)
    ∧ coreInv (ensureContentStarted c).1
        (.blocks (ensureContentStarted c).1.contentIndex true)
    ∧ (ensureContentStarted c).1.startedContent = true := by
  obtain ⟨idx, m, th, co⟩ := c
  obtain ⟨hexcl, hv⟩ := hInv
  cases co with
  | true =>
    cases th with
    | true => exact absurd ⟨rfl, rfl⟩ hexcl
    | false =>
      cases m with
      | false => exact Bool.noConfusion hv.2.2.1
      | true =>
        obtain rfl := hv
        simp [ensureContentStarted, vsteps, vstep, coreInv]
  | false =>
    cases th with
    | true =>
      cases m with
      | false => exact Bool.noConfusion hv.2.1
      | true =>
        obtain rfl := hv
        simp [ensureContentStarted, closeThinking, ensureMessageStarted,
          vsteps, vstep, coreInv]
    | false =>
      cases m with
      | false =>
        obtain ⟨rfl, -, -, hidx⟩ := hv
        have hidx2 : idx = 0 := hidx
        subst hidx2
        simp [ensureContentStarted, closeThinking, ensureMessageStarted,
          vsteps, vstep, coreInv]
      | true =>
        obtain rfl := hv
        simp [ensureContentStarted, closeThinking, ensureMessageStarted,
          vsteps, vstep, coreInv]

/-- One reasoning/text handling step preserves the checker relation, provided
    no reasoning chunk arrives while a text block is open. -/
theorem procChunk_sim (c : EmitCore) (v : VState) (r t : String)
    (hInv : coreInv c v) (hOrd : c.startedContent = true → r = "") :
    ∃ v2, vsteps v (procChunk c r t).2 = some v2
      ∧ coreInv (procChunk c r t).1 v2
      ∧ (procChunk c r t).1.startedContent = (c.startedContent || !(t == "")) := by
  by_cases hr : r = ""
  · by_cases ht : t = ""
    · refine ⟨v, ?_, ?_, ?_⟩
      · simp [procChunk, hr, ht, vsteps]
      · simpa [procChunk, hr, ht] using hInv
      · simp [procChunk, hr, ht]
    · obtain ⟨hrun, hinv2, hco2⟩ := ensureContentStarted_sim c v hInv
      refine ⟨.blocks (ensureContentStarted c).1.contentIndex true, ?_, ?_, ?_⟩
      · simpa [procChunk, hr, ht] using hrun
      · simpa [procChunk, hr, ht] using hinv2
      · simp [procChunk, hr, ht, hco2]
  · have hco : c.startedContent = false := by
      cases hc2 : c.startedContent with
      | false => rfl
      | true => exact absurd (hOrd hc2) hr
    obtain ⟨hrun1, hstate1⟩ := ensureThinkingStarted_sim c v hInv hco
    rw [hstate1] at hrun1
    dsimp only at hrun1
    have hinv1 : coreInv (⟨c.contentIndex, true, true, false⟩ : EmitCore)
        (.blocks c.contentIndex true) := by
      constructor
      · intro hcontra
        exact Bool.noConfusion hcontra.2
      · rfl
    by_cases ht : t = ""
    · refine ⟨.blocks c.contentIndex true, ?_, ?_, ?_⟩
      · simpa [procChunk, hr, ht, hstate1] using hrun1
      · simp only [procChunk, if_pos hr, if_neg (not_not_intro ht)]
        rw [hstate1]
        exact hinv1
      · simp [procChunk, hr, ht, hstate1, hco]
    · obtain ⟨hrun2, hinv2, hco2⟩ :=
        ensureContentStarted_sim (⟨c.contentIndex, true, true, false⟩ : EmitCore)
          (.blocks c.contentIndex true) hinv1
      refine ⟨.blocks (ensureContentStarted
          (⟨c.contentIndex, true, true, false⟩ : EmitCore)).1.contentIndex true,
        ?_, ?_, ?_⟩
      · simp only [procChunk, if_pos hr, if_pos ht, hstate1]
        rw [vsteps_append, hrun1]
        simpa using hrun2
      · simp only [procChunk, if_pos hr, if_pos ht, hstate1]
        exact hinv2
      · simp only [procChunk, if_pos hr, if_pos ht, hstate1, hco2]
        simp [ht]


/-- The initial emitter state is related to the initial checker state. -/
theorem coreInv_init : coreInv initCore .start := by
  refine ⟨fun h => Bool.noConfusion h.1, ?_⟩
  exact ⟨rfl, rfl, rfl, rfl⟩

/-- Running the generic per-event step over a delta list preserves the checker
    relation, provided no reasoning chunk follows a nonempty text chunk. -/
theorem genRun_sim {π δ : Type} (rchunk tchunk : δ → String) (pupd : π → δ → π)
    (ds : List δ) (s : AdapterState π) (v : VState)
    (hInv : coreInv s.core v)
    (hOrd : s.core.startedContent = true → ∀ d ∈ ds, rchunk d = "")
    (hPair : ds.Pairwise (fun a b => tchunk a ≠ "" → rchunk b = "")) :
    ∃ v2, vsteps v (runEmit (genStep rchunk tchunk pupd) s ds).2 = some v2
      ∧ coreInv (runEmit (genStep rchunk tchunk pupd) s ds).1.core v2 := by
  induction ds generalizing s v with
  | nil => exact ⟨v, rfl, hInv⟩
  | cons d rest ih =>
    obtain ⟨hd, hrest⟩ := List.pairwise_cons.mp hPair
    have hOrdHead : s.core.startedContent = true → rchunk d = "" :=
      fun h => hOrd h d (List.mem_cons_self d rest)
    obtain ⟨v1, hrun1, hinv1, hco1⟩ :=
      procChunk_sim s.core v (rchunk d) (tchunk d) hInv hOrdHead
    have hOrd2 : (procChunk s.core (rchunk d) (tchunk d)).1.startedContent = true →
        ∀ e ∈ rest, rchunk e = "" := by
      intro h e he
      rw [hco1] at h
      cases hsc : s.core.startedContent with
      | true => exact hOrd hsc e (List.mem_cons_of_mem d he)
      | false =>
        rw [hsc, Bool.false_or] at h
        have ht : tchunk d ≠ "" := by
          intro hh
          rw [hh] at h
          simp at h
        exact hd e he ht
    obtain ⟨v2, hrun2, hinv2⟩ :=
      ih ⟨(procChunk s.core (rchunk d) (tchunk d)).1, pupd s.pending d⟩ v1 hinv1 hOrd2 hrest
    refine ⟨v2, ?_, ?_⟩
    · rw [runEmit, vsteps_append]
      have hsel : (genStep rchunk tchunk pupd s d).2
          = (procChunk s.core (rchunk d) (tchunk d)).2 := rfl
      rw [hsel, hrun1, Option.some_bind]
      exact hrun2
    · exact hinv2

/-! ## C1: every emitted stream matches the section 4.5 grammar -/

/-- Counterexample to the unconditional claim: when an upstream delta carries
    a reasoning chunk after an earlier delta carried text, chatOpenRouter
    starts a second block at the same index without closing the first, so the
    emitted stream violates the section 4.5 grammar. -/
theorem c1_counterexample :
    validStream
      (emitOpenRouter [⟨"", "hi", []⟩, ⟨"think", "", []⟩]) = false := by
  decide

/-- C1 (amended): for every upstream delta sequence in which no reasoning
    chunk arrives after a nonempty text chunk, the stream emitted by
    chatOpenRouter matches the section 4.5 grammar; likewise for
    _chatGeminiOAuthInner over its flattened candidate parts. Without that
    ordering hypothesis the claim is false (a reasoning delta arriving after
    text reopens a block at an already-used index without closing the open
    one). -/
theorem c1_stream_grammar
    (ds : List ORDelta)
    (hds : ds.Pairwise (fun a b => a.content ≠ "" → b.reasoning = ""))
    (es : List GeminiStreamEvent)
    (hes : (es.flatMap GeminiStreamEvent.parts).Pairwise
      (fun a b => gTextChunk a ≠ "" → gThinkChunk b = "")) :
    validStream (emitOpenRouter ds) = true
      ∧ validStream (emitGeminiOAuth es) = true := by
  constructor
  · obtain ⟨v2, hrun, hinv⟩ :=
      genRun_sim ORDelta.reasoning ORDelta.content
        (fun p d => d.toolCalls.foldl upsertTool p) ds
        ⟨initCore, []⟩ .start coreInv_init
        (fun h => Bool.noConfusion h) hds
    show validStream
      ((runEmit orStep ⟨initCore, []⟩ ds).2
        ++ finalizeEvents (runEmit orStep ⟨initCore, []⟩ ds).1.core
             ((runEmit orStep ⟨initCore, []⟩ ds).1.pending.map (fun p => p.2))) = true
    rw [validStream, vsteps_append]
    rw [show (runEmit orStep (⟨initCore, []⟩ : AdapterState (List (Nat × ToolAcc))) ds)
          = runEmit (genStep ORDelta.reasoning ORDelta.content
              (fun p d => d.toolCalls.foldl upsertTool p)) ⟨initCore, []⟩ ds from rfl]
    rw [hrun, Option.some_bind, finalize_sim _ _ _ hinv]
    rfl
  · obtain ⟨v2, hrun, hinv⟩ :=
      genRun_sim gThinkChunk gTextChunk
        (fun p q => match q.functionCall with
          | some fc => p ++ [fc]
          | none => p)
        (es.flatMap GeminiStreamEvent.parts)
        ⟨initCore, []⟩ .start coreInv_init
        (fun h => Bool.noConfusion h) hes
    show validStream
      ((runEmit gEventStep ⟨initCore, []⟩ es).2
        ++ finalizeEvents (runEmit gEventStep ⟨initCore, []⟩ es).1.core
             (runEmit gEventStep ⟨initCore, []⟩ es).1.pending) = true
    rw [validStream, vsteps_append, runEmit_gEvent_flatten]
    rw [show (runEmit gPartStep (⟨initCore, []⟩ : AdapterState (List (String × Json)))
              (es.flatMap GeminiStreamEvent.parts))
          = runEmit (genStep gThinkChunk gTextChunk
              (fun p q => match q.functionCall with
                | some fc => p ++ [fc]
                | none => p)) ⟨initCore, []⟩ (es.flatMap GeminiStreamEvent.parts) from rfl]
    rw [hrun, Option.some_bind, finalize_sim _ _ _ hinv]
    rfl

/-- The amended C1 at concrete inputs: a reasoning delta followed by a text
    delta (each adapter) yields a grammar-conforming stream. -/
theorem c1_witness :
    validStream (emitOpenRouter [⟨"think", "", []⟩, ⟨"", "hi", []⟩]) = true
      ∧ validStream
          (emitGeminiOAuth [⟨[⟨true, "t", none⟩, ⟨false, "x", none⟩]⟩]) = true :=
  c1_stream_grammar [⟨"think", "", []⟩, ⟨"", "hi", []⟩] (by decide)
    [⟨[⟨true, "t", none⟩, ⟨false, "x", none⟩]⟩]
    (by
      refine List.Pairwise.cons ?_ (List.Pairwise.cons ?_ List.Pairwise.nil)
      · intro p hp hne
        simp at hp
        subst hp
        rfl
      · intro p hp
        simp at hp)

end ClaudeProxy
